import Mathlib

/-!
Shallow embedding of the wave-interference memory engine of this repository
(`src/holographic/HolographicMemorySystem.ts`, `src/holographic/InterferenceEngine.ts`,
`src/holographic/HolographicWaveEngine.ts`).

Modelling conventions:
* JavaScript numbers are modelled as real numbers (`ℝ`); the 32-bit wrap-around in the
  string hash is modelled explicitly over `ℤ`.
* `Date` timestamps are modelled as integer milliseconds; each operation that reads
  `Date.now()` receives the current time `now : ℤ` as an explicit argument.
* JS `Map`s are modelled as association lists in insertion order: `Map.set` replaces the
  value in place when the key is present and appends otherwise; `Map.delete` filters;
  iteration order is list order.
* Randomly generated identifiers (`frag_…`, `wave_…`, `emergent_…` strings) are modelled
  by counters carried in the state, which preserves exactly what the code relies on:
  freshness.  Interference-pattern cache keys `"${id1}-${id2}"` are modelled as the pair
  `(id1, id2)`.
* `content : any` payloads are modelled as `String`; on strings both `extractTextContent`
  and `extractText` are the identity, which is the case exercised by every claim.
-/

namespace Holo

/-- UTF-16-style character code used by `charCodeAt` (agrees with `Char.toNat` on the
basic multilingual plane, which covers all source-relevant inputs). -/
def charCode (c : Char) : ℕ := c.toNat

/-- JS `ToInt32`: reduce an integer to the signed 32-bit range. -/
def toInt32 (x : ℤ) : ℤ :=
  let r := x % 4294967296
  if r < 2147483648 then r else r - 4294967296

/-- One step of the hash loop `hash = ((hash << 5) - hash + str.charCodeAt(i)) & 0xffffffff`.
`hash << 5` is a 32-bit shift (`ToInt32` of the product) and `& 0xffffffff` is `ToInt32`
of the sum. -/
def hashStep (h : ℤ) (c : ℕ) : ℤ :=
  toInt32 (toInt32 (h * 32) - h + c)

/-- The string hash computed by `calculatePhase` (fold of `hashStep` from 0). -/
def strHash (s : String) : ℤ :=
  s.data.foldl (fun h c => hashStep h (charCode c)) 0

/-- `(Math.abs(hash) % 628)` — the numerator of the derived phase. -/
def phaseNum (content sourceRegion : String) : ℕ :=
  (strHash (content ++ sourceRegion)).natAbs % 628

/-- `HolographicMemorySystem.calculatePhase` / `HolographicWaveEngine.calculatePhase`
(`(Math.abs(hash) % 628) / 100`). -/
noncomputable def calculatePhase (content sourceRegion : String) : ℝ :=
  (phaseNum content sourceRegion : ℝ) / 100

/-- `needle` is a prefix of `hay` (character lists). -/
def charsStarts : List Char → List Char → Bool
  | [], _ => true
  | _ :: _, [] => false
  | a :: as, b :: bs => a = b && charsStarts as bs

/-- `needle` occurs as a contiguous run inside `hay`: JS `hay.includes(needle)` on the
character lists. -/
def charsIncl (needle : List Char) : List Char → Bool
  | [] => charsStarts needle []
  | b :: bs => charsStarts needle (b :: bs) || charsIncl needle bs

/-- JS `s.toLowerCase()` (character-wise lowering; agrees with JS on the ASCII
inputs the engine handles). -/
def lowerStr (s : String) : List Char := s.data.map Char.toLower

/-- JS `String.prototype.split` at every character satisfying `p`
(`split(' ')` keeps empty runs, exactly as here). -/
def chSplit (p : Char → Bool) : List Char → List (List Char)
  | [] => [[]]
  | c :: cs =>
      match chSplit p cs with
      | [] => [[]]
      | w :: ws => if p c then [] :: w :: ws else (c :: w) :: ws

/-- JS string comparison (`<` of `Array.sort`'s default string order): lexicographic by
character code, shorter prefix first. -/
def chLe (a b : List Char) : Bool :=
  match a, b with
  | [], _ => true
  | _ :: _, [] => false
  | x :: xs, y :: ys => if x = y then chLe xs ys else decide (x < y)

/-- JS `Array.prototype.join(sep)`. -/
def chIntercalate (sep : List Char) : List (List Char) → List Char
  | [] => []
  | [w] => w
  | w :: ws => w ++ sep ++ chIntercalate sep ws

/-- JS `String.prototype.trim`. -/
def chTrim (l : List Char) : List Char :=
  ((l.dropWhile (fun c => c.isWhitespace)).reverse.dropWhile (fun c => c.isWhitespace)).reverse

/-- The eight wave types of `WaveType` in `src/types/holographic.ts`. -/
inductive WaveType where
  | CONTEXT | INTENT | CONFIDENCE | TEMPORAL | MEMORY | PERSONA | REASONING | VISUAL
deriving DecidableEq, Repr

/-- The static `WaveFrequencies` table of `src/types/holographic.ts`. -/
noncomputable def WaveFrequencies : WaveType → ℝ
  | .CONTEXT => 0.5
  | .INTENT => 1.0
  | .CONFIDENCE => 2.0
  | .TEMPORAL => 0.8
  | .MEMORY => 0.3
  | .PERSONA => 0.2
  | .REASONING => 1.2
  | .VISUAL => 1.5

/-- The significant words of a content string: `content.toLowerCase().split(' ')`
filtered to words of length `> 3` (the pipeline of `generateCoherenceSignature`). -/
def significantWords (content : String) : List (List Char) :=
  (chSplit (fun c => c = ' ') (lowerStr content)).filter (fun w => w.length > 3)

/-- `HolographicMemorySystem.generateCoherenceSignature`: take the **first** five
significant words, sort them (JS `Array.sort`, a stable lexicographic string sort),
join with `"|"`. -/
def generateCoherenceSignature (content : String) : String :=
  ⟨chIntercalate ['|']
    (((significantWords content).take 5).insertionSort (fun a b => chLe a b = true))⟩

/-! ### Association lists modelling JS `Map` -/

/-- `Map.get` / `Map.has` (first matching key; keys are unique in a JS map). -/
def alGet [DecidableEq κ] : List (κ × ν) → κ → Option ν
  | [], _ => none
  | (k, v) :: rest, key => if k = key then some v else alGet rest key

/-- `Map.set`: replace in place when present, append otherwise. -/
def alSet [DecidableEq κ] : List (κ × ν) → κ → ν → List (κ × ν)
  | [], key, v => [(key, v)]
  | (k, w) :: rest, key, v =>
      if k = key then (k, v) :: rest else (k, w) :: alSet rest key v

/-- The keys of an association list. -/
def alKeys (m : List (κ × ν)) : List κ := m.map Prod.fst

/-! ### Data model (`src/types/holographic.ts`) -/

/-- `HolographicFragment`.  `id` is a counter-generated unique identifier,
`timestamp` is milliseconds. -/
structure Fragment where
  id : ℕ
  content : String
  sourceRegion : String
  waveType : WaveType
  frequency : ℝ
  amplitude : ℝ
  phase : ℝ
  timestamp : ℤ
  importance : ℝ
  coherenceSignature : String
  sessionId : String

/-- `HolographicWave` (the transient signal).  `content : any` modelled as `String`. -/
structure Wave where
  id : ℕ
  sourceRegion : String
  targetRegions : List String
  waveType : WaveType
  frequency : ℝ
  phase : ℝ
  amplitude : ℝ
  content : String
  memoryFragmentIds : List ℕ
  timestamp : ℤ

/-- `InterferencePattern`.  The random `id` string of the record is unused by the code
(the cache key is the wave-id pair `waveIds`) and is omitted. -/
structure Pattern where
  waveIds : ℕ × ℕ
  resultantAmplitude : ℝ
  resultantFrequency : ℝ
  coherenceLevel : ℝ
  emergentContent : Option String
  constructive : Bool
  timestamp : ℤ

/-- `EmergentBehavior`.  Its fresh random `id` is the key of the behaviors map and is
modelled by the counter key in `EngineState.emergentBehaviors`. -/
structure Behavior where
  triggerPattern : Pattern
  behaviorType : String
  confidence : ℝ
  insight : String
  timestamp : ℤ

/-- The `interference` section of `HolographicConfig`. -/
structure InterferenceConfig where
  constructiveThreshold : ℝ
  destructiveThreshold : ℝ
  emergentThreshold : ℝ
  coherenceDecayRate : ℝ

/-- The `memory` section of `HolographicConfig`. -/
structure MemoryConfig where
  maxFragmentsPerRegion : ℕ
  reconstructionThreshold : ℝ
  fragmentPersistence : ℝ
  crossSessionEnabled : Bool

/-- The `degradation` section of `HolographicConfig`. -/
structure DegradationConfig where
  enabled : Bool
  reconstructionAttempts : ℕ
  minimumCoherence : ℝ
  fallbackRegions : List String

/-- `HolographicConfig` (the per-wave-type `frequencies` record is the static
`WaveFrequencies` table, which the code reads directly). -/
structure HolographicConfig where
  interference : InterferenceConfig
  memory : MemoryConfig
  degradation : DegradationConfig

/-- A reconstruction target context.  `JSON.stringify(targetContext)` is modelled by the
opaque canonical `serialized` string (used both as the cache key and as the relevance
content string), and the optional `type` property by `type?`. -/
structure Ctx where
  serialized : String
  type? : Option WaveType

/-- In-memory state of `HolographicMemorySystem`: the `fragments` map (insertion
order), the `coherenceMap`, the `reconstructionCache`, and the id counter modelling
`generateFragmentId`. -/
structure MemoryState where
  fragments : List Fragment
  coherenceMap : List (ℕ × ℝ)
  reconstructionCache : List (String × String)
  nextFragmentId : ℕ

/-- The empty `HolographicMemorySystem` state (constructor before `loadPersistedFragments`,
or with persistence disabled). -/
def MemoryState.empty : MemoryState :=
  { fragments := [], coherenceMap := [], reconstructionCache := [], nextFragmentId := 0 }

/-! ### `HolographicMemorySystem` operations -/

/-- The fragment record built at the top of `storeFragment`: frequency from the static
table, phase from the deterministic hash, `amplitude = importance`, signature from the
content. -/
noncomputable def mkFragment (content sourceRegion : String) (waveType : WaveType)
    (importance : ℝ) (sessionId : String) (now : ℤ) (id : ℕ) : Fragment :=
  { id := id
    content := content
    sourceRegion := sourceRegion
    waveType := waveType
    frequency := WaveFrequencies waveType
    amplitude := importance
    phase := calculatePhase content sourceRegion
    timestamp := now
    importance := importance
    coherenceSignature := generateCoherenceSignature content
    sessionId := sessionId }

/-- The sort `(a, b) => timestampB - timestampA` of `cleanupOldFragments`: newest first;
JS `Array.sort` is stable, so ties keep insertion order, which is exactly
`insertionSort` with the relation `b.timestamp ≤ a.timestamp`. -/
def sortTimeDesc (l : List Fragment) : List Fragment :=
  l.insertionSort (fun a b => b.timestamp ≤ a.timestamp)

/-- `HolographicMemorySystem.cleanupOldFragments`: collect the region's fragments newest
first; if they exceed `maxFragmentsPerRegion`, delete the ones past the cap (the oldest)
from the fragments map and the coherence map. -/
def cleanupOldFragments (cfg : HolographicConfig) (sourceRegion : String)
    (st : MemoryState) : MemoryState :=
  let regionFragments := sortTimeDesc (st.fragments.filter (fun f => f.sourceRegion = sourceRegion))
  if regionFragments.length > cfg.memory.maxFragmentsPerRegion then
    let toRemove := regionFragments.drop cfg.memory.maxFragmentsPerRegion
    { st with
      fragments := st.fragments.filter (fun f => ¬ toRemove.any (fun g => g.id = f.id))
      coherenceMap := st.coherenceMap.filter (fun e => ¬ toRemove.any (fun g => g.id = e.1)) }
  else st

/-- `HolographicMemorySystem.storeFragment`: build the fragment, insert it, update the
coherence map, then run eviction for its region.  (The `persistFragment` call writes the
external blob collaborator and does not touch in-memory state.)  Returns the fragment id. -/
noncomputable def storeFragment (cfg : HolographicConfig) (content sourceRegion : String)
    (waveType : WaveType) (importance : ℝ) (sessionId : String) (now : ℤ)
    (st : MemoryState) : ℕ × MemoryState :=
  let fragment := mkFragment content sourceRegion waveType importance sessionId now
    st.nextFragmentId
  let st1 : MemoryState :=
    { st with
      fragments := st.fragments ++ [fragment]
      coherenceMap := alSet st.coherenceMap fragment.id fragment.amplitude
      nextFragmentId := st.nextFragmentId + 1 }
  (fragment.id, cleanupOldFragments cfg sourceRegion st1)

/-- One persisted record of the external blob (`zv6_holographic_fragments`): the fragment
fields with `timestamp` replaced by `none` when the serialized date is missing or
unparsable (`new Date(...)` gives `NaN`). -/
structure PersistedEntry where
  id : ℕ
  content : String
  sourceRegion : String
  waveType : WaveType
  frequency : ℝ
  amplitude : ℝ
  phase : ℝ
  timestamp : Option ℤ
  importance : ℝ
  coherenceSignature : String
  sessionId : String

/-- Milliseconds in seven days, the decay scale of the persistence path. -/
def sevenDayMillis : ℤ := 7 * 24 * 60 * 60 * 1000

/-- The in-memory fragment a persisted entry is restored to, after the load-time decay. -/
def PersistedEntry.toFragment (e : PersistedEntry) (ts : ℤ) (amp : ℝ) : Fragment :=
  { id := e.id, content := e.content, sourceRegion := e.sourceRegion,
    waveType := e.waveType, frequency := e.frequency, amplitude := amp,
    phase := e.phase, timestamp := ts, importance := e.importance,
    coherenceSignature := e.coherenceSignature, sessionId := e.sessionId }

/-- `HolographicMemorySystem.loadPersistedFragments` (cross-session persistence enabled):
for each persisted entry, skip it when the timestamp is invalid; otherwise multiply its
amplitude by `exp(−age / sevenDayMillis)` and accept it into the fragments map only when
the decayed amplitude exceeds 0.1.  Returns the list of fragments accepted into memory. -/
noncomputable def loadPersistedFragments (now : ℤ) (entries : List PersistedEntry) :
    List Fragment :=
  entries.foldl (fun acc e =>
    match e.timestamp with
    | none => acc
    | some ts =>
        let age : ℝ := ((now - ts : ℤ) : ℝ)
        let decayFactor : ℝ := Real.exp (-age / (sevenDayMillis : ℝ))
        let amp := e.amplitude * decayFactor
        if amp > 0.1 then acc ++ [e.toFragment ts amp] else acc) []

/-! ### Reconstruction (`findRelevantFragments`, viability, `reconstructInformation`) -/

/-- The relevance score of one fragment in `findRelevantFragments`:
`#commonWords × 0.1 + 0.3 (matching wave type) + temporalBoost × 0.2`, all multiplied by
the fragment's importance.  `contextWords` are the words of the lowercased serialized
context; a content word is common when it contains or is contained in some context word. -/
noncomputable def relevanceScore (ctx : Ctx) (now : ℤ) (f : Fragment) : ℝ :=
  let contextWords := chSplit (fun c => c = ' ') (lowerStr ctx.serialized)
  let contentWords := chSplit (fun c => c = ' ') (lowerStr f.content)
  let commonWords := contentWords.filter (fun word =>
    contextWords.any (fun contextWord =>
      charsIncl word contextWord || charsIncl contextWord word))
  let ageHours : ℝ := ((now - f.timestamp : ℤ) : ℝ) / (1000 * 60 * 60)
  let temporalBoost : ℝ := max 0 (1 - ageHours / 24)
  ((commonWords.length : ℝ) * 0.1
    + (if ctx.type? = some f.waveType then 0.3 else 0)
    + temporalBoost * 0.2) * f.importance

/-- The sort `(a, b) => b.importance - a.importance` closing `findRelevantFragments`
(stable, most important first). -/
noncomputable def sortImportanceDesc (l : List Fragment) : List Fragment :=
  l.insertionSort (fun a b => b.importance ≤ a.importance)

/-- `HolographicMemorySystem.findRelevantFragments`: keep fragments whose relevance score
exceeds 0.2, most important first.  (The per-fragment `try/catch` is dead in the model:
no sub-step of the score can throw, and stored timestamps are always valid.) -/
noncomputable def findRelevantFragments (ctx : Ctx) (now : ℤ) (fragments : List Fragment) :
    List Fragment :=
  sortImportanceDesc (fragments.filter (fun f => relevanceScore ctx now f > 0.2))

/-- `HolographicMemorySystem.calculateFragmentCoherence`:
`exp(−|Δfreq|) × 0.3 + cos(|Δphase|) × 0.3 + wordOverlapRatio × 0.4`. -/
noncomputable def calculateFragmentCoherence (f1 f2 : Fragment) : ℝ :=
  let freqCoherence := Real.exp (-|f1.frequency - f2.frequency|)
  let phaseCoherence := Real.cos |f1.phase - f2.phase|
  let w1 := chSplit (fun c => c = ' ') (lowerStr f1.content)
  let w2 := chSplit (fun c => c = ' ') (lowerStr f2.content)
  let commonWords := w1.filter (fun word => w2.contains word)
  let contentCoherence := (commonWords.length : ℝ) / (max w1.length w2.length : ℕ)
  freqCoherence * 0.3 + phaseCoherence * 0.3 + contentCoherence * 0.4

/-- All unordered pairs `(l[i], l[j])`, `i < j`, in the order of the two nested loops. -/
def pairsUpper : List α → List (α × α)
  | [] => []
  | x :: xs => xs.map (fun y => (x, y)) ++ pairsUpper xs

/-- `HolographicMemorySystem.assessReconstructionViability`:
`0.7 × mean pairwise coherence + 0.3 × min(1, count/5)` (0 for an empty list). -/
noncomputable def assessReconstructionViability (fragments : List Fragment) : ℝ :=
  if fragments.length = 0 then 0
  else
    let ps := pairsUpper fragments
    let totalCoherence := (ps.map (fun p => calculateFragmentCoherence p.1 p.2)).sum
    let averageCoherence := if ps.length > 0 then totalCoherence / (ps.length : ℝ) else 0
    let countBoost : ℝ := min 1 ((fragments.length : ℝ) / 5)
    averageCoherence * 0.7 + countBoost * 0.3

/-- `[...new Set(list)]`: deduplicate keeping first occurrences. -/
def dedupFirst : List String → List String
  | [] => []
  | x :: xs => x :: dedupFirst (xs.filter (fun y => y ≠ x))
termination_by l => l.length
decreasing_by
  simp only [List.length_cons]
  exact Nat.lt_succ_of_le (List.length_filter_le _ _)

/-- `HolographicMemorySystem.performHolographicReconstruction`: for each distinct content
string, include it verbatim when the summed amplitude of the fragments whose content
contains its 50-character prefix exceeds 0.3; concatenate with trailing spaces and trim.
(The `frequencyMap` / `sortedFrequencies` computed by the source are dead code: their
value is never used for the output, so they are omitted.) -/
noncomputable def performHolographicReconstruction (fragments : List Fragment) : String :=
  let uniqueContent := dedupFirst (fragments.map (fun f => f.content))
  let included := uniqueContent.filter (fun content =>
    let relevantFragments := fragments.filter (fun f =>
      charsIncl (content.data.take 50) f.content.data)
    ((relevantFragments.map (fun f => f.amplitude)).sum : ℝ) > 0.3)
  ⟨chTrim (List.flatten (included.map (fun c => c.data ++ [' '])))⟩

/-- `HolographicMemorySystem.reconstructInformation`: serve from the reconstruction cache
when the serialized context is present; otherwise return `none` when no fragment is
relevant or the viability is below `requiredCoherence`, and otherwise reconstruct, cache
and return the text.  Returns the result together with the updated state. -/
noncomputable def reconstructInformation (ctx : Ctx) (requiredCoherence : ℝ) (now : ℤ)
    (st : MemoryState) : Option String × MemoryState :=
  let cacheKey := ctx.serialized
  match alGet st.reconstructionCache cacheKey with
  | some cached => (some cached, st)
  | none =>
      let relevantFragments := findRelevantFragments ctx now st.fragments
      if relevantFragments.length = 0 then (none, st)
      else
        let viability := assessReconstructionViability relevantFragments
        if viability < requiredCoherence then (none, st)
        else
          let reconstructed := performHolographicReconstruction relevantFragments
          (some reconstructed,
            { st with reconstructionCache := alSet st.reconstructionCache cacheKey reconstructed })

/-- `HolographicMemorySystem.getFragmentCount`. -/
def getFragmentCount (st : MemoryState) : ℕ := st.fragments.length

/-- `HolographicMemorySystem.getFragmentsByRegion`. -/
def getFragmentsByRegion (region : String) (st : MemoryState) : List Fragment :=
  st.fragments.filter (fun f => f.sourceRegion = region)

/-- `HolographicMemorySystem.clearCache`: clears only the reconstruction cache. -/
def clearCache (st : MemoryState) : MemoryState :=
  { st with reconstructionCache := [] }

/-- `HolographicMemorySystem.flushAllMemory`: clears all in-memory state (the
localStorage purge acts on the external blob collaborator). -/
def flushAllMemory (st : MemoryState) : MemoryState :=
  { st with fragments := [], coherenceMap := [], reconstructionCache := [] }

/-! ### `InterferenceEngine` -/

/-- JS `text.split(/\s+/)`: modelled as splitting at each whitespace character; the
extra empty entries this produces relative to run-merging are removed by the
`length > 3` condition of the consumer. -/
def wsSplit (s : String) : List (List Char) :=
  chSplit (fun c => c.isWhitespace) s.data

/-- `InterferenceEngine.synthesizeContent`: below coherence 0.5 or with an empty (falsy)
text no content is produced; otherwise the shared words of length `> 3` of the lowercased
texts, when any exist, are woven into the fixed connection sentence. -/
noncomputable def synthesizeContent (content1 content2 : String) (coherenceLevel : ℝ) :
    Option String :=
  if coherenceLevel < 0.5 then none
  else
    -- `extractText` is the identity on string payloads.
    let text1 := content1
    let text2 := content2
    if text1 = "" ∨ text2 = "" then none
    else
      let words1 := chSplit (fun c => c.isWhitespace) (lowerStr text1)
      let words2 := chSplit (fun c => c.isWhitespace) (lowerStr text2)
      let commonWords := words1.filter (fun word => words2.contains word && word.length > 3)
      if commonWords.length > 0 then
        some ⟨"Emergent insight: Connection between \"".data ++ text1.data.take 50
          ++ "\" and \"".data ++ text2.data.take 50
          ++ "\" through common elements: ".data
          ++ chIntercalate [',', ' '] (commonWords.take 3)⟩
      else none

/-- `InterferenceEngine.calculateInterference` on two waves. -/
noncomputable def calculateInterference (wave1 wave2 : Wave) (now : ℤ) : Pattern :=
  let phaseDifference := |wave1.phase - wave2.phase|
  let frequencyRatio := wave1.frequency / wave2.frequency
  let constructive : Bool := if phaseDifference < Real.pi / 4 then true else false
  let resultantAmplitude := wave1.amplitude * wave2.amplitude *
    (if phaseDifference < Real.pi / 4 then Real.cos phaseDifference
     else Real.sin phaseDifference)
  let phaseCoherence := Real.cos phaseDifference
  let frequencyCoherence := Real.exp (-|frequencyRatio - 1|)
  let coherenceLevel := (phaseCoherence + frequencyCoherence) / 2
  { waveIds := (wave1.id, wave2.id)
    resultantAmplitude := resultantAmplitude
    resultantFrequency := (wave1.frequency + wave2.frequency) / 2
    coherenceLevel := coherenceLevel
    emergentContent := synthesizeContent wave1.content wave2.content coherenceLevel
    constructive := constructive
    timestamp := now }

/-- `InterferenceEngine.classifyBehaviorType` (exact precedence of the source). -/
noncomputable def classifyBehaviorType (p : Pattern) : String :=
  if p.coherenceLevel > 0.8 ∧ p.constructive = true ∧ p.resultantAmplitude > 0.7 then
    "SYNTHESIS"
  else if p.coherenceLevel > 0.7 ∧ p.constructive = true then "INSIGHT"
  else if p.constructive = false ∧ p.coherenceLevel > 0.6 then "CONTRADICTION"
  else "CORRELATION"

/-- Rolling state of `InterferenceEngine`: the pattern cache keyed by the wave-id pair,
the behavior cache keyed by its fresh ids (modelled by the counter `nextBehaviorId`). -/
structure EngineState where
  activePatterns : List ((ℕ × ℕ) × Pattern)
  emergentBehaviors : List (ℕ × Behavior)
  nextBehaviorId : ℕ

/-- A fresh `InterferenceEngine` (constructor state). -/
def EngineState.empty : EngineState :=
  { activePatterns := [], emergentBehaviors := [], nextBehaviorId := 0 }

/-- The body of the `detectEmergentPatterns` loop for one retained pattern: above the
emergent threshold and with emergent content present, create a behavior with a fresh id,
collect it and insert it into the behavior cache. -/
noncomputable def detectStep (cfg : HolographicConfig) (now : ℤ)
    (acc : List Behavior × EngineState) (entry : (ℕ × ℕ) × Pattern) :
    List Behavior × EngineState :=
  let p := entry.2
  if p.coherenceLevel > cfg.interference.emergentThreshold ∧ p.emergentContent.isSome then
    let behavior : Behavior :=
      { triggerPattern := p
        behaviorType := classifyBehaviorType p
        confidence := p.coherenceLevel
        insight := p.emergentContent.getD ""
        timestamp := now }
    (acc.1 ++ [behavior],
      { acc.2 with
        emergentBehaviors := alSet acc.2.emergentBehaviors acc.2.nextBehaviorId behavior
        nextBehaviorId := acc.2.nextBehaviorId + 1 })
  else acc

/-- `InterferenceEngine.detectEmergentPatterns`: for every retained pattern above the
emergent threshold that carries emergent content, create a behavior with a fresh id,
return it and insert it into the behavior cache. -/
noncomputable def detectEmergentPatterns (cfg : HolographicConfig)
    (interferenceResults : List ((ℕ × ℕ) × Pattern)) (now : ℤ) (es : EngineState) :
    List Behavior × EngineState :=
  interferenceResults.foldl (detectStep cfg now) ([], es)

/-- `InterferenceEngine.calculateSystemCoherence`: 0.5 with no retained patterns, else
mean coherence plus `min(0.2, patternCount × 0.05)`, clamped to 1. -/
noncomputable def calculateSystemCoherence (interferenceResults : List ((ℕ × ℕ) × Pattern)) :
    ℝ :=
  if interferenceResults.length = 0 then 0.5
  else
    let coherenceValues := interferenceResults.map (fun e => e.2.coherenceLevel)
    let averageCoherence := coherenceValues.sum / (coherenceValues.length : ℝ)
    let complexityBoost : ℝ := min 0.2 ((interferenceResults.length : ℝ) * 0.05)
    min 1.0 (averageCoherence + complexityBoost)

/-- The result record of `InterferenceEngine.processWaveInterference`. -/
structure InterferenceResult where
  interferenceResults : List ((ℕ × ℕ) × Pattern)
  emergentPatterns : List Behavior
  systemCoherence : ℝ

/-- The body of the pairwise loop of `processWaveInterference` for one pair: retain the
scored pattern (into the per-call map and the rolling cache, keyed by the stable wave-id
pair) exactly when its coherence exceeds the constructive threshold. -/
noncomputable def interferenceStep (cfg : HolographicConfig) (now : ℤ)
    (acc : List ((ℕ × ℕ) × Pattern) × EngineState) (pr : Wave × Wave) :
    List ((ℕ × ℕ) × Pattern) × EngineState :=
  let interference := calculateInterference pr.1 pr.2 now
  if interference.coherenceLevel > cfg.interference.constructiveThreshold then
    let patternId := (pr.1.id, pr.2.id)
    (alSet acc.1 patternId interference,
      { acc.2 with activePatterns := alSet acc.2.activePatterns patternId interference })
  else acc

/-- `InterferenceEngine.processWaveInterference`: score every unordered pair, retain the
patterns above the constructive threshold, then detect emergent behaviors and compute
the system coherence over the retained patterns of this call. -/
noncomputable def processWaveInterference (cfg : HolographicConfig) (waves : List Wave)
    (now : ℤ) (es : EngineState) : InterferenceResult × EngineState :=
  let scored := (pairsUpper waves).foldl (interferenceStep cfg now) ([], es)
  let interferenceResults := scored.1
  let detected := detectEmergentPatterns cfg interferenceResults now scored.2
  ({ interferenceResults := interferenceResults
     emergentPatterns := detected.1
     systemCoherence := calculateSystemCoherence interferenceResults },
    detected.2)

/-- `InterferenceEngine.getEmergentBehaviors` (`Array.from(map.values())`). -/
def getEmergentBehaviors (es : EngineState) : List Behavior :=
  es.emergentBehaviors.map Prod.snd

/-- `InterferenceEngine.getActivePatterns`. -/
def getActivePatterns (es : EngineState) : List Pattern :=
  es.activePatterns.map Prod.snd

/-- `InterferenceEngine.clearOldPatterns` (default `maxAge` 300 000 ms): drop patterns and
behaviors older than `maxAge` from the rolling caches. -/
def clearOldPatterns (maxAge : ℤ) (now : ℤ) (es : EngineState) : EngineState :=
  { es with
    activePatterns := es.activePatterns.filter (fun e => ¬ now - e.2.timestamp > maxAge)
    emergentBehaviors := es.emergentBehaviors.filter (fun e => ¬ now - e.2.timestamp > maxAge) }

/-! ### `HolographicWaveEngine` -/

/-- Whole-engine state: the active-wave set (with the counter modelling
`generateWaveId`), the owned memory system and the interference engine. -/
structure SystemState where
  activeWaves : List Wave
  nextWaveId : ℕ
  memory : MemoryState
  engine : EngineState

/-- The wave record built at the top of `propagateHolographicWave` (target regions
default to `['all']`; frequency from the static table; phase from the deterministic
hash of the extracted text and the source region). -/
noncomputable def mkWave (sourceRegion content : String) (waveType : WaveType)
    (amplitude : ℝ) (targetRegions : List String) (now : ℤ) (id : ℕ)
    (memoryFragmentIds : List ℕ) : Wave :=
  { id := id
    sourceRegion := sourceRegion
    targetRegions := if targetRegions.length > 0 then targetRegions else ["all"]
    waveType := waveType
    frequency := WaveFrequencies waveType
    phase := calculatePhase content sourceRegion
    amplitude := amplitude
    content := content
    memoryFragmentIds := memoryFragmentIds
    timestamp := now }

/-- `HolographicWaveEngine.propagateHolographicWave`: build the wave, store the linked
fragment, add the wave to the active set, recompute interference over the whole active
set, and store every emergent behavior's insight as a `MEMORY` fragment attributed to
`'InterferenceEngine'`.  `sessionId` models the randomly generated session ids.  Returns
the wave id. -/
noncomputable def propagateHolographicWave (cfg : HolographicConfig)
    (sourceRegion content : String) (waveType : WaveType) (amplitude : ℝ)
    (targetRegions : List String) (sessionId : String) (now : ℤ) (st : SystemState) :
    ℕ × SystemState :=
  let fragRes := storeFragment cfg content sourceRegion waveType amplitude sessionId now
    st.memory
  let wave := mkWave sourceRegion content waveType amplitude targetRegions now
    st.nextWaveId [fragRes.1]
  let activeWaves := st.activeWaves ++ [wave]
  let interference := processWaveInterference cfg activeWaves now st.engine
  let memoryAfter := interference.1.emergentPatterns.foldl (fun m b =>
    (storeFragment cfg b.insight "InterferenceEngine" WaveType.MEMORY b.confidence
      sessionId now m).2) fragRes.2
  (wave.id,
    { activeWaves := activeWaves
      nextWaveId := st.nextWaveId + 1
      memory := memoryAfter
      engine := interference.2 })

/-- The snapshot returned by `HolographicWaveEngine.getSystemState`. -/
structure Snapshot where
  activeWaves : ℕ
  fragmentCount : ℕ
  systemCoherence : ℝ
  emergentBehaviors : ℕ
  interferencePatterns : ℕ

/-- `HolographicWaveEngine.getSystemState`: recompute interference over the active set
(mutating the interference engine's rolling caches) and report the counts. -/
noncomputable def getSystemState (cfg : HolographicConfig) (now : ℤ) (st : SystemState) :
    Snapshot × SystemState :=
  let interference := processWaveInterference cfg st.activeWaves now st.engine
  ({ activeWaves := st.activeWaves.length
     fragmentCount := getFragmentCount st.memory
     systemCoherence := interference.1.systemCoherence
     emergentBehaviors := interference.1.emergentPatterns.length
     interferencePatterns := interference.1.interferenceResults.length },
    { st with engine := interference.2 })

/-- The structured result of `gracefulDegradation`. -/
structure DegradationResult where
  success : Bool
  method : String
  confidence : ℝ
  reconstructed : Option String

/-- `HolographicWaveEngine.gracefulDegradation`: attempt reconstruction at the
configured minimum-coherence floor; a truthy (non-null, nonempty) text yields the
holographic-reconstruction result, anything else the emergency fallback.  All the
operations of the model are total, so the `catch` conversion to
`{success:false, method:'failed', confidence:0}` is unreachable. -/
noncomputable def gracefulDegradation (cfg : HolographicConfig) (fallbackContext : Ctx)
    (now : ℤ) (st : SystemState) : DegradationResult × SystemState :=
  let recon := reconstructInformation fallbackContext cfg.degradation.minimumCoherence
    now st.memory
  let st' := { st with memory := recon.2 }
  match recon.1 with
  | some reconstructed =>
      if reconstructed = "" then
        ({ success := true, method := "emergency_fallback", confidence := 0.3,
           reconstructed := none }, st')
      else
        ({ success := true, method := "holographic_reconstruction", confidence := 0.6,
           reconstructed := some reconstructed }, st')
  | none =>
      ({ success := true, method := "emergency_fallback", confidence := 0.3,
         reconstructed := none }, st')

/-- The decayed amplitude of one wave after `updateWaveDecay(deltaTime)`:
`amplitude × exp(−deltaTime / 10000)`. -/
noncomputable def decayedAmplitude (w : Wave) (deltaTime : ℝ) : ℝ :=
  w.amplitude * Real.exp (-deltaTime / 10000)

/-- `HolographicWaveEngine.updateWaveDecay`: decay every active wave, remove those whose
new amplitude falls below 0.1, then garbage-collect old interference patterns. -/
noncomputable def updateWaveDecay (deltaTime : ℝ) (now : ℤ) (st : SystemState) :
    SystemState :=
  { st with
    activeWaves := st.activeWaves.filterMap (fun w =>
      let a := decayedAmplitude w deltaTime
      if a < 0.1 then none else some { w with amplitude := a })
    engine := clearOldPatterns 300000 now st.engine }

/-! ### Store-call sequences and concrete instances used by the claims -/

/-- The arguments of one `storeFragment` invocation (`time` models the `Date.now()`
instant of the call). -/
structure StoreCall where
  content : String
  sourceRegion : String
  waveType : WaveType
  importance : ℝ
  sessionId : String
  time : ℤ

/-- Run one store call against a memory state. -/
noncomputable def storeOne (cfg : HolographicConfig) (c : StoreCall) (st : MemoryState) :
    ℕ × MemoryState :=
  storeFragment cfg c.content c.sourceRegion c.waveType c.importance c.sessionId c.time st

/-- Run a sequence of `storeFragment` calls, collecting the returned fragment ids. -/
noncomputable def storeMany (cfg : HolographicConfig) :
    List StoreCall → MemoryState → List ℕ × MemoryState
  | [], st => ([], st)
  | c :: cs, st =>
      let r := storeOne cfg c st
      let rest := storeMany cfg cs r.2
      (r.1 :: rest.1, rest.2)

/-- The fragment a store call creates when the id counter stands at `id`. -/
noncomputable def callFragment (c : StoreCall) (id : ℕ) : Fragment :=
  mkFragment c.content c.sourceRegion c.waveType c.importance c.sessionId c.time id

/-- The fragments a sequence of store calls creates, ids counted from `i`. -/
noncomputable def callFragments (i : ℕ) : List StoreCall → List Fragment
  | [] => []
  | c :: cs => callFragment c i :: callFragments (i + 1) cs

/-- A representative configuration (thresholds 0.3 / 0.6, region cap 100). -/
noncomputable def defaultConfig : HolographicConfig :=
  ⟨⟨0.3, 0.3, 0.6, 0.01⟩, ⟨100, 0.6, 0.3, false⟩, ⟨true, 3, 0.3, []⟩⟩

/-- A memory state whose reconstruction cache already holds `"k" ↦ "hello"`. -/
def c9State : MemoryState :=
  { fragments := [], coherenceMap := [], reconstructionCache := [("k", "hello")],
    nextFragmentId := 0 }

/-- A reconstruction context serialized as `"k"`. -/
def c9Ctx : Ctx := ⟨"k", none⟩

/-- One intervening store call. -/
noncomputable def c9Calls : List StoreCall := [⟨"c", "r", .CONTEXT, 0.5, "s", 0⟩]

/-- An active wave of amplitude 0 (legitimate: amplitude is caller-supplied in `[0,1]`). -/
noncomputable def c7Wave : Wave :=
  ⟨0, "region", ["all"], .CONTEXT, 0.5, 0, 0, "content", [], 0⟩

/-- A system state whose only active wave has amplitude 0. -/
noncomputable def c7State : SystemState :=
  ⟨[c7Wave], 1, MemoryState.empty, EngineState.empty⟩

/-- An active wave of amplitude 1. -/
noncomputable def c7GoodWave : Wave :=
  ⟨0, "region", ["all"], .CONTEXT, 0.5, 0, 1, "content", [], 0⟩

/-- A system state whose only active wave has amplitude 1. -/
noncomputable def c7GoodState : SystemState :=
  ⟨[c7GoodWave], 1, MemoryState.empty, EngineState.empty⟩

/-- A persisted entry of amplitude 1 stamped at epoch 0. -/
noncomputable def c1Entry : PersistedEntry :=
  ⟨1, "content", "region", .CONTEXT, 0.5, 1, 0, some 0, 1, "sig", "session"⟩

/-- A configuration whose region cap is 1. -/
noncomputable def c2Cfg : HolographicConfig :=
  ⟨⟨0.3, 0.3, 0.6, 0.01⟩, ⟨1, 0.6, 0.3, false⟩, ⟨true, 3, 0.3, []⟩⟩

/-- Two store calls into region `"r"` at instants 0 and 1. -/
noncomputable def c2Calls : List StoreCall :=
  [⟨"a", "r", .CONTEXT, 0.5, "s", 0⟩, ⟨"b", "r", .CONTEXT, 0.5, "s", 1⟩]

/-- A wave whose phase is `arccos(−1/10)` (frequency 1, amplitude 1). -/
noncomputable def c4WaveA : Wave :=
  ⟨0, "r", ["all"], .CONTEXT, 1, Real.arccos (-(1 / 10)), 1, "alpha", [], 0⟩

/-- A wave of phase 0 (frequency 1, amplitude 1). -/
noncomputable def c4WaveB : Wave :=
  ⟨1, "r", ["all"], .CONTEXT, 1, 0, 1, "beta", [], 0⟩

/-- A wave (id 0) sharing content, phase and frequency with `c10WaveB`. -/
noncomputable def c10WaveA : Wave :=
  ⟨0, "r", ["all"], .CONTEXT, 1, 0, 1, "hello world wave", [], 0⟩

/-- A wave (id 1) sharing content, phase and frequency with `c10WaveA`. -/
noncomputable def c10WaveB : Wave :=
  ⟨1, "r", ["all"], .CONTEXT, 1, 0, 1, "hello world wave", [], 0⟩

/-- A system state with the two perfectly coherent waves active and fresh caches. -/
noncomputable def c10State : SystemState :=
  ⟨[c10WaveA, c10WaveB], 2, MemoryState.empty, EngineState.empty⟩

/-! ## General lemmas -/

theorem alGet_alSet_self [DecidableEq κ] (m : List (κ × ν)) (k : κ) (v : ν) :
    alGet (alSet m k v) k = some v := by
  induction m with
  | nil => simp [alSet, alGet]
  | cons e rest ih =>
      obtain ⟨k', w⟩ := e
      by_cases h : k' = k
      · simp [alSet, h, alGet]
      · simp [alSet, h, alGet, ih]

theorem alGet_alSet_ne [DecidableEq κ] (m : List (κ × ν)) {k' k : κ} (v : ν)
    (h : k' ≠ k) : alGet (alSet m k' v) k = alGet m k := by
  induction m with
  | nil => simp [alSet, alGet, h]
  | cons e rest ih =>
      obtain ⟨k₀, w⟩ := e
      by_cases h0 : k₀ = k'
      · subst h0
        simp [alSet, alGet, h]
      · simp [alSet, h0, alGet, ih]

theorem alKeys_cons (k₀ : κ) (w : ν) (rest : List (κ × ν)) :
    alKeys ((k₀, w) :: rest) = k₀ :: alKeys rest := rfl

theorem alSet_cons_eq [DecidableEq κ] (k₀ : κ) (w : ν) (rest : List (κ × ν)) (k : κ)
    (v : ν) (h : k₀ = k) : alSet ((k₀, w) :: rest) k v = (k₀, v) :: rest := by
  simp [alSet, h]

theorem alSet_cons_ne [DecidableEq κ] (k₀ : κ) (w : ν) (rest : List (κ × ν)) (k : κ)
    (v : ν) (h : ¬ k₀ = k) : alSet ((k₀, w) :: rest) k v = (k₀, w) :: alSet rest k v := by
  simp [alSet, h]

theorem alSet_length_of_mem [DecidableEq κ] (m : List (κ × ν)) (k : κ) (v : ν)
    (h : k ∈ alKeys m) : (alSet m k v).length = m.length := by
  induction m with
  | nil => simp [alKeys] at h
  | cons e rest ih =>
      obtain ⟨k₀, w⟩ := e
      by_cases h0 : k₀ = k
      · rw [alSet_cons_eq k₀ w rest k v h0]
        simp
      · rw [alSet_cons_ne k₀ w rest k v h0]
        have h1 : k ∈ alKeys rest := by
          rw [alKeys_cons] at h
          rcases List.mem_cons.mp h with h1 | h1
          · exact absurd h1.symm h0
          · exact h1
        simp [ih h1]

theorem alSet_length_of_not_mem [DecidableEq κ] (m : List (κ × ν)) (k : κ) (v : ν)
    (h : ¬ k ∈ alKeys m) : (alSet m k v).length = m.length + 1 := by
  induction m with
  | nil => simp [alSet]
  | cons e rest ih =>
      obtain ⟨k₀, w⟩ := e
      have h0 : ¬ k₀ = k := by
        intro hc
        rw [alKeys_cons, hc] at h
        exact h (List.mem_cons_self k (alKeys rest))
      have h1 : ¬ k ∈ alKeys rest := by
        intro hc
        rw [alKeys_cons] at h
        exact h (List.mem_cons_of_mem k₀ hc)
      rw [alSet_cons_ne k₀ w rest k v h0]
      simp [ih h1]

theorem mem_alKeys_alSet [DecidableEq κ] (m : List (κ × ν)) (k k' : κ) (v : ν)
    (h : k' ∈ alKeys m) : k' ∈ alKeys (alSet m k v) := by
  induction m with
  | nil => simp [alKeys] at h
  | cons e rest ih =>
      obtain ⟨k₀, w⟩ := e
      rw [alKeys_cons] at h
      by_cases h0 : k₀ = k
      · rw [alSet_cons_eq k₀ w rest k v h0, alKeys_cons]
        exact h
      · rw [alSet_cons_ne k₀ w rest k v h0, alKeys_cons]
        rcases List.mem_cons.mp h with h1 | h1
        · exact List.mem_cons.mpr (Or.inl h1)
        · exact List.mem_cons.mpr (Or.inr (ih h1))

theorem self_mem_alKeys_alSet [DecidableEq κ] (m : List (κ × ν)) (k : κ) (v : ν) :
    k ∈ alKeys (alSet m k v) := by
  induction m with
  | nil => simp [alSet, alKeys]
  | cons e rest ih =>
      obtain ⟨k₀, w⟩ := e
      by_cases h0 : k₀ = k
      · rw [alSet_cons_eq k₀ w rest k v h0, alKeys_cons]
        exact List.mem_cons.mpr (Or.inl h0.symm)
      · rw [alSet_cons_ne k₀ w rest k v h0, alKeys_cons]
        exact List.mem_cons.mpr (Or.inr ih)

theorem alKeys_alSet_sub [DecidableEq κ] (m : List (κ × ν)) (k k' : κ) (v : ν)
    (h : k' ∈ alKeys (alSet m k v)) : k' = k ∨ k' ∈ alKeys m := by
  induction m with
  | nil =>
      left
      simpa [alSet, alKeys] using h
  | cons e rest ih =>
      obtain ⟨k₀, w⟩ := e
      by_cases h0 : k₀ = k
      · rw [alSet_cons_eq k₀ w rest k v h0, alKeys_cons] at h
        rcases List.mem_cons.mp h with h1 | h1
        · exact Or.inl (h1.trans h0)
        · exact Or.inr (by rw [alKeys_cons]; exact List.mem_cons_of_mem k₀ h1)
      · rw [alSet_cons_ne k₀ w rest k v h0, alKeys_cons] at h
        rcases List.mem_cons.mp h with h1 | h1
        · exact Or.inr (by rw [alKeys_cons, h1]; exact List.mem_cons_self k₀ (alKeys rest))
        · rcases ih h1 with h2 | h2
          · exact Or.inl h2
          · exact Or.inr (by rw [alKeys_cons]; exact List.mem_cons_of_mem k₀ h2)

theorem alGet_mem [DecidableEq κ] (m : List (κ × ν)) (k : κ) (v : ν)
    (h : alGet m k = some v) : (k, v) ∈ m := by
  induction m with
  | nil => simp [alGet] at h
  | cons e rest ih =>
      obtain ⟨k₀, w⟩ := e
      by_cases h0 : k₀ = k
      · subst h0
        simp [alGet] at h
        simp [h]
      · simp [alGet, h0] at h
        simp [ih h]

/-! ## Phase bounds -/

theorem phaseNum_lt (content sourceRegion : String) : phaseNum content sourceRegion < 628 := by
  unfold phaseNum
  exact Nat.mod_lt _ (by norm_num)

theorem calculatePhase_nonneg (content sourceRegion : String) :
    0 ≤ calculatePhase content sourceRegion := by
  unfold calculatePhase
  positivity

theorem calculatePhase_lt_two_pi (content sourceRegion : String) :
    calculatePhase content sourceRegion < 2 * Real.pi := by
  have h1 : (phaseNum content sourceRegion : ℝ) ≤ 627 := by
    exact_mod_cast Nat.lt_succ_iff.mp (phaseNum_lt content sourceRegion)
  have hpi := Real.pi_gt_d6
  unfold calculatePhase
  linarith

/-! ## Claim theorems -/

/-- C5: the signal and the fragment created by propagation carry the static
table frequency of their wave type, and the derived phase — a function of the content
and source region alone, the remaining arguments being arbitrary — lies in `[0, 2π)`. -/
theorem c5_propagation_frequency_and_phase (cfg : HolographicConfig)
    (sourceRegion content : String) (waveType : WaveType) (amplitude : ℝ)
    (targetRegions : List String) (sessionId : String) (now : ℤ) (st : SystemState) :
    (propagateHolographicWave cfg sourceRegion content waveType amplitude targetRegions
        sessionId now st).2.activeWaves
      = st.activeWaves ++ [mkWave sourceRegion content waveType amplitude targetRegions
          now st.nextWaveId [st.memory.nextFragmentId]]
    ∧ (mkWave sourceRegion content waveType amplitude targetRegions now st.nextWaveId
        [st.memory.nextFragmentId]).frequency = WaveFrequencies waveType
    ∧ (mkFragment content sourceRegion waveType amplitude sessionId now
        st.memory.nextFragmentId).frequency = WaveFrequencies waveType
    ∧ (mkWave sourceRegion content waveType amplitude targetRegions now st.nextWaveId
        [st.memory.nextFragmentId]).phase = calculatePhase content sourceRegion
    ∧ (mkFragment content sourceRegion waveType amplitude sessionId now
        st.memory.nextFragmentId).phase = calculatePhase content sourceRegion
    ∧ 0 ≤ calculatePhase content sourceRegion
    ∧ calculatePhase content sourceRegion < 2 * Real.pi := by
  refine ⟨?_, rfl, rfl, rfl, rfl, calculatePhase_nonneg content sourceRegion,
    calculatePhase_lt_two_pi content sourceRegion⟩
  simp [propagateHolographicWave, storeFragment, mkFragment]

/-- C3: `reconstructInformation` is idempotent — with an unchanged fragment set and the
same context (and instant), a repeated call returns the same result and leaves the state
unchanged; moreover whenever the first call returned text, the serialized context now
maps to that text in the reconstruction cache. -/
theorem c3_reconstructInformation_idempotent (ctx : Ctx) (requiredCoherence : ℝ)
    (now : ℤ) (st : MemoryState) :
    reconstructInformation ctx requiredCoherence now
        (reconstructInformation ctx requiredCoherence now st).2
      = reconstructInformation ctx requiredCoherence now st
    ∧ ((reconstructInformation ctx requiredCoherence now st).1 = none
        ∨ alGet (reconstructInformation ctx requiredCoherence now st).2.reconstructionCache
            ctx.serialized = (reconstructInformation ctx requiredCoherence now st).1) := by
  cases h : alGet st.reconstructionCache ctx.serialized with
  | some c =>
      constructor
      · simp [reconstructInformation, h]
      · right
        simp [reconstructInformation, h]
  | none =>
      by_cases hrel : (findRelevantFragments ctx now st.fragments).length = 0
      · constructor
        · simp [reconstructInformation, h, hrel]
        · left
          simp [reconstructInformation, h, hrel]
      · by_cases hv : assessReconstructionViability (findRelevantFragments ctx now st.fragments)
            < requiredCoherence
        · constructor
          · simp [reconstructInformation, h, hrel, hv]
          · left
            simp [reconstructInformation, h, hrel, hv]
        · have hget := alGet_alSet_self st.reconstructionCache ctx.serialized
            (performHolographicReconstruction (findRelevantFragments ctx now st.fragments))
          constructor
          · simp [reconstructInformation, h, hrel, hv, hget]
          · right
            simp [reconstructInformation, h, hrel, hv, hget]

/-- C6: `gracefulDegradation` always returns a structured result: the
holographic-reconstruction result (confidence 0.6, reconstructed text attached) exactly
when reconstruction at the configured minimum-coherence floor yields truthy text, and the
emergency fallback (confidence 0.3, no reconstructed text) otherwise — in particular when
reconstruction returns `null`.  All model operations are total, so the catch-all
`{success:false, method:'failed'}` conversion can never fire, and no exception escapes. -/
theorem c6_gracefulDegradation_shape (cfg : HolographicConfig) (ctx : Ctx) (now : ℤ)
    (st : SystemState) :
    (∃ t, (reconstructInformation ctx cfg.degradation.minimumCoherence now st.memory).1
          = some t
        ∧ t ≠ ""
        ∧ (gracefulDegradation cfg ctx now st).1
            = ⟨true, "holographic_reconstruction", 0.6, some t⟩)
    ∨ (((reconstructInformation ctx cfg.degradation.minimumCoherence now st.memory).1 = none
          ∨ (reconstructInformation ctx cfg.degradation.minimumCoherence now st.memory).1
              = some "")
        ∧ (gracefulDegradation cfg ctx now st).1 = ⟨true, "emergency_fallback", 0.3, none⟩) := by
  cases h : (reconstructInformation ctx cfg.degradation.minimumCoherence now st.memory).1 with
  | none =>
      right
      exact ⟨Or.inl rfl, by simp [gracefulDegradation, h]⟩
  | some t =>
      by_cases ht : t = ""
      · right
        subst ht
        exact ⟨Or.inr rfl, by simp [gracefulDegradation, h]⟩
      · left
        exact ⟨t, rfl, ht, by simp [gracefulDegradation, h, ht]⟩

theorem cleanupOldFragments_cache (cfg : HolographicConfig) (region : String)
    (st : MemoryState) :
    (cleanupOldFragments cfg region st).reconstructionCache = st.reconstructionCache := by
  unfold cleanupOldFragments
  dsimp only
  split <;> rfl

theorem storeOne_cache (cfg : HolographicConfig) (c : StoreCall) (st : MemoryState) :
    (storeOne cfg c st).2.reconstructionCache = st.reconstructionCache := by
  unfold storeOne storeFragment
  exact cleanupOldFragments_cache cfg c.sourceRegion _

theorem storeMany_cache (cfg : HolographicConfig) (calls : List StoreCall)
    (st : MemoryState) :
    (storeMany cfg calls st).2.reconstructionCache = st.reconstructionCache := by
  induction calls generalizing st with
  | nil => rfl
  | cons c cs ih =>
      show (storeMany cfg cs (storeOne cfg c st).2).2.reconstructionCache = _
      rw [ih (storeOne cfg c st).2, storeOne_cache cfg c st]

theorem reconstruct_none_state (ctx : Ctx) (r : ℝ) (now : ℤ) (st : MemoryState)
    (hn : (reconstructInformation ctx r now st).1 = none) :
    (reconstructInformation ctx r now st).2 = st := by
  cases h2 : alGet st.reconstructionCache ctx.serialized with
  | some c => simp [reconstructInformation, h2] at hn
  | none =>
      by_cases hrel : (findRelevantFragments ctx now st.fragments).length = 0
      · simp [reconstructInformation, h2, hrel]
      · by_cases hv : assessReconstructionViability (findRelevantFragments ctx now st.fragments) < r
        · simp [reconstructInformation, h2, hrel, hv]
        · simp [reconstructInformation, h2, hrel, hv] at hn

/-- C9 (implicit): a cached reconstruction is never invalidated by fragment mutation —
after any sequence of intervening `storeFragment` calls (with their evictions) the cached
text is still returned for the same serialized context, for any required coherence and
any instant, and the stores leave the cache untouched; `clearCache` and `flushAllMemory`
do empty the cache; a `null` result never changes the state, hence is never cached. -/
theorem c9_cache_not_invalidated (cfg : HolographicConfig) (ctx : Ctx) (t : String)
    (calls : List StoreCall) (r2 : ℝ) (now : ℤ) (st : MemoryState)
    (h : alGet st.reconstructionCache ctx.serialized = some t) :
    reconstructInformation ctx r2 now (storeMany cfg calls st).2
        = (some t, (storeMany cfg calls st).2)
    ∧ (storeMany cfg calls st).2.reconstructionCache = st.reconstructionCache
    ∧ (clearCache st).reconstructionCache = []
    ∧ (flushAllMemory st).reconstructionCache = []
    ∧ ∀ st2 ctx2 r now2, (reconstructInformation ctx2 r now2 st2).1 = none →
        (reconstructInformation ctx2 r now2 st2).2 = st2 := by
  have hc := storeMany_cache cfg calls st
  refine ⟨?_, hc, rfl, rfl, fun st2 ctx2 r now2 hn => reconstruct_none_state ctx2 r now2 st2 hn⟩
  have hget : alGet (storeMany cfg calls st).2.reconstructionCache ctx.serialized = some t := by
    rw [hc]
    exact h
  simp [reconstructInformation, hget]

/-- Witness for C9 at a concrete cached state, with one intervening store. -/
theorem c9_cache_not_invalidated_witness :
    alGet c9State.reconstructionCache c9Ctx.serialized = some "hello"
    ∧ (reconstructInformation c9Ctx 0.9 5 (storeMany defaultConfig c9Calls c9State).2
          = (some "hello", (storeMany defaultConfig c9Calls c9State).2)
        ∧ (storeMany defaultConfig c9Calls c9State).2.reconstructionCache
            = c9State.reconstructionCache
        ∧ (clearCache c9State).reconstructionCache = []
        ∧ (flushAllMemory c9State).reconstructionCache = []
        ∧ ∀ st2 ctx2 r now2, (reconstructInformation ctx2 r now2 st2).1 = none →
            (reconstructInformation ctx2 r now2 st2).2 = st2) :=
  ⟨rfl, c9_cache_not_invalidated defaultConfig c9Ctx "hello" c9Calls 0.9 5 c9State rfl⟩

/-- C7 counterexample: an active signal of amplitude 0 (amplitude is caller-supplied and
`[0,1]` by the data model) does not strictly decrease under `updateWaveDecay` with
`deltaTime = 1 > 0`: `0 · exp(−1/10000) = 0`. -/
theorem c7_counterexample :
    c7Wave ∈ c7State.activeWaves
    ∧ (0 : ℝ) < 1
    ∧ ¬ decayedAmplitude c7Wave 1 < c7Wave.amplitude := by
  refine ⟨List.mem_cons_self _ _, by norm_num, ?_⟩
  have h0 : c7Wave.amplitude = 0 := rfl
  have h : decayedAmplitude c7Wave 1 = 0 := by
    unfold decayedAmplitude
    rw [h0, zero_mul]
  rw [h, h0]
  exact lt_irrefl 0

/-- C7 amended: for every active signal of **positive** amplitude and every
`deltaTime > 0`, the decayed amplitude `amplitude · exp(−deltaTime/10000)` is strictly
smaller; the signal survives the call (with exactly the decayed amplitude) precisely when
the decayed amplitude is at least 0.1, and every signal surviving the call has amplitude
at least 0.1 — so only the signals that fell below 0.1 are removed. -/
theorem c7_decay_monotone_amended (st : SystemState) (deltaTime : ℝ) (now : ℤ) (w : Wave)
    (hmem : w ∈ st.activeWaves) (hdt : 0 < deltaTime) (hamp : 0 < w.amplitude) :
    decayedAmplitude w deltaTime < w.amplitude
    ∧ (0.1 ≤ decayedAmplitude w deltaTime →
        { w with amplitude := decayedAmplitude w deltaTime }
          ∈ (updateWaveDecay deltaTime now st).activeWaves)
    ∧ ∀ v ∈ (updateWaveDecay deltaTime now st).activeWaves, 0.1 ≤ v.amplitude := by
  have hexp : Real.exp (-deltaTime / 10000) < 1 := by
    rw [← Real.exp_zero]
    apply Real.exp_lt_exp.mpr
    have hpos : 0 < deltaTime / 10000 := by positivity
    have : -deltaTime / 10000 = -(deltaTime / 10000) := by ring
    rw [this]
    linarith
  refine ⟨?_, ?_, ?_⟩
  · unfold decayedAmplitude
    calc w.amplitude * Real.exp (-deltaTime / 10000)
        < w.amplitude * 1 := mul_lt_mul_of_pos_left hexp hamp
      _ = w.amplitude := mul_one _
  · intro hge
    show _ ∈ st.activeWaves.filterMap _
    apply List.mem_filterMap.mpr
    refine ⟨w, hmem, ?_⟩
    simp only []
    rw [if_neg (not_lt.mpr hge)]
  · intro v hv
    replace hv : v ∈ st.activeWaves.filterMap _ := hv
    rcases List.mem_filterMap.mp hv with ⟨u, _, hfu⟩
    dsimp only at hfu
    by_cases hlt : decayedAmplitude u deltaTime < 0.1
    · rw [if_pos hlt] at hfu
      exact absurd hfu (by simp)
    · rw [if_neg hlt] at hfu
      have hval := Option.some.inj hfu
      rw [← hval]
      exact not_lt.mp hlt

/-- Witness for the amended C7 at a concrete amplitude-1 wave and `deltaTime = 1`. -/
theorem c7_decay_monotone_amended_witness :
    (c7GoodWave ∈ c7GoodState.activeWaves ∧ (0 : ℝ) < 1 ∧ (0 : ℝ) < c7GoodWave.amplitude)
    ∧ (decayedAmplitude c7GoodWave 1 < c7GoodWave.amplitude
      ∧ (0.1 ≤ decayedAmplitude c7GoodWave 1 →
          { c7GoodWave with amplitude := decayedAmplitude c7GoodWave 1 }
            ∈ (updateWaveDecay 1 0 c7GoodState).activeWaves)
      ∧ ∀ v ∈ (updateWaveDecay 1 0 c7GoodState).activeWaves, 0.1 ≤ v.amplitude) :=
  ⟨⟨List.mem_cons_self _ _, by norm_num, zero_lt_one⟩,
    c7_decay_monotone_amended c7GoodState 1 0 c7GoodWave (List.mem_cons_self _ _)
      (by norm_num) zero_lt_one⟩

theorem chLe_total : ∀ a b : List Char, chLe a b = true ∨ chLe b a = true
  | [], _ => Or.inl rfl
  | _ :: _, [] => Or.inr rfl
  | x :: xs, y :: ys => by
      by_cases hxy : x = y
      · subst hxy
        rcases chLe_total xs ys with h | h
        · left
          simp [chLe, h]
        · right
          simp [chLe, h]
      · rcases lt_or_gt_of_ne hxy with h | h
        · left
          simp [chLe, hxy, h]
        · right
          simp [chLe, Ne.symm hxy, h]

theorem chLe_trans : ∀ a b c : List Char,
    chLe a b = true → chLe b c = true → chLe a c = true
  | [], _, _, _, _ => rfl
  | _ :: _, [], _, hab, _ => by simp [chLe] at hab
  | _ :: _, _ :: _, [], _, hbc => by simp [chLe] at hbc
  | x :: xs, y :: ys, z :: zs, hab, hbc => by
      by_cases hxy : x = y <;> by_cases hyz : y = z
      · subst hxy
        subst hyz
        simp only [chLe, if_pos rfl] at hab hbc ⊢
        exact chLe_trans xs ys zs hab hbc
      · subst hxy
        simp only [chLe, if_pos rfl, if_neg hyz] at hbc ⊢
        exact hbc
      · subst hyz
        simp only [chLe, if_neg hxy] at hab ⊢
        exact hab
      · simp only [chLe, if_neg hxy, if_neg hyz, decide_eq_true_eq] at hab hbc
        have hxz : x < z := lt_trans hab hbc
        simp [chLe, ne_of_lt hxz, hxz]

instance : IsTotal (List Char) (fun a b => chLe a b = true) := ⟨chLe_total⟩

instance : IsTrans (List Char) (fun a b => chLe a b = true) := ⟨chLe_trans⟩

/-- C8 counterexample: on `"aaaa bbbb cccc dddd eeee zzzzzz"` the computed signature is
built from the **first** five significant words; the unique longest significant word
`"zzzzzz"` (length 6, all others length 4) does not occur in it, although any choice of
the five longest words must contain it. -/
theorem c8_counterexample :
    generateCoherenceSignature "aaaa bbbb cccc dddd eeee zzzzzz" = "aaaa|bbbb|cccc|dddd|eeee"
    ∧ "zzzzzz".data ∈ significantWords "aaaa bbbb cccc dddd eeee zzzzzz"
    ∧ ("zzzzzz".data.length = 6
        ∧ (significantWords "aaaa bbbb cccc dddd eeee zzzzzz").all
            (fun w => w = "zzzzzz".data ∨ w.length < 6) = true)
    ∧ charsIncl "zzzzzz".data
        (generateCoherenceSignature "aaaa bbbb cccc dddd eeee zzzzzz").data = false := by
  refine ⟨?_, ?_, ⟨?_, ?_⟩, ?_⟩ <;> decide

/-- C8 amended: the coherence signature is the `"|"`-join of the **first** (at most)
five significant words (length > 3) of the lowercased content, in JS-string
alphabetical order. -/
theorem c8_signature_first_five_sorted (content : String) :
    ∃ ws : List (List Char),
      List.Perm ws ((significantWords content).take 5)
      ∧ List.Sorted (fun a b => chLe a b = true) ws
      ∧ generateCoherenceSignature content = ⟨chIntercalate ['|'] ws⟩ :=
  ⟨((significantWords content).take 5).insertionSort (fun a b => chLe a b = true),
    List.perm_insertionSort _ _, List.sorted_insertionSort _ _, rfl⟩

theorem loadPersistedFragments_eq_filterMap (now : ℤ) (entries : List PersistedEntry) :
    loadPersistedFragments now entries = entries.filterMap (fun e =>
      e.timestamp.bind (fun ts =>
        let amp := e.amplitude * Real.exp (-((now - ts : ℤ) : ℝ) / ((sevenDayMillis : ℤ) : ℝ))
        if amp > 0.1 then some (e.toFragment ts amp) else none)) := by
  have aux : ∀ (es : List PersistedEntry) (acc : List Fragment),
      es.foldl (fun acc e =>
        match e.timestamp with
        | none => acc
        | some ts =>
            let age : ℝ := ((now - ts : ℤ) : ℝ)
            let decayFactor : ℝ := Real.exp (-age / (sevenDayMillis : ℝ))
            let amp := e.amplitude * decayFactor
            if amp > 0.1 then acc ++ [e.toFragment ts amp] else acc) acc
        = acc ++ es.filterMap (fun e =>
            e.timestamp.bind (fun ts =>
              let amp := e.amplitude
                * Real.exp (-((now - ts : ℤ) : ℝ) / ((sevenDayMillis : ℤ) : ℝ))
              if amp > 0.1 then some (e.toFragment ts amp) else none)) := by
    intro es
    induction es with
    | nil => intro acc; simp
    | cons e rest ih =>
        intro acc
        cases hts : e.timestamp with
        | none =>
            simp only [List.foldl_cons, hts, List.filterMap_cons, Option.none_bind]
            exact ih acc
        | some ts =>
            by_cases hamp : e.amplitude
                * Real.exp (-((now - ts : ℤ) : ℝ) / ((sevenDayMillis : ℤ) : ℝ)) > 0.1
            · simp only [List.foldl_cons, hts, List.filterMap_cons, Option.some_bind,
                if_pos hamp]
              rw [ih (acc ++ [e.toFragment ts _]), List.append_assoc,
                List.singleton_append]
            · simp only [List.foldl_cons, hts, List.filterMap_cons, Option.some_bind,
                if_neg hamp]
              exact ih acc
  exact aux entries []

/-- C1 amended: on load every entry with a missing or unparsable timestamp is skipped
without aborting; every surviving entry's amplitude is multiplied by
`exp(−ageMillis / sevenDayMillis)` and the entry is accepted exactly when the decayed
amplitude exceeds 0.1 (dropped at or below 0.1).  Entries older than 7 days are **not**
categorically excluded at load — the 7-day cutoff is applied by `persistFragment` when
writing, not when loading. -/
theorem c1_load_decay_characterization (now : ℤ) (entries : List PersistedEntry) :
    loadPersistedFragments now entries = entries.filterMap (fun e =>
      e.timestamp.bind (fun ts =>
        let amp := e.amplitude * Real.exp (-((now - ts : ℤ) : ℝ) / ((sevenDayMillis : ℤ) : ℝ))
        if amp > 0.1 then some (e.toFragment ts amp) else none)) :=
  loadPersistedFragments_eq_filterMap now entries

theorem exp_neg_eight_sevenths_gt : Real.exp (-(8 / 7) : ℝ) > 0.1 := by
  have h2 : Real.exp (8 / 7 : ℝ) < Real.exp 2 := Real.exp_lt_exp.mpr (by norm_num)
  have h3 : Real.exp 2 < 10 := by
    have h4 : Real.exp 2 = Real.exp 1 * Real.exp 1 := by
      rw [← Real.exp_add]
      norm_num
    have h5 := Real.exp_one_lt_d9
    nlinarith [Real.exp_pos 1]
  have h6 : Real.exp (8 / 7 : ℝ) < 10 := lt_trans h2 h3
  have h7 : Real.exp (-(8 / 7) : ℝ) = (Real.exp (8 / 7 : ℝ))⁻¹ := Real.exp_neg _
  have h8 := Real.exp_pos (8 / 7 : ℝ)
  rw [h7, gt_iff_lt, show (0.1 : ℝ) = 10⁻¹ by norm_num]
  exact (inv_lt_inv (by norm_num) h8).mpr h6

/-- C1 counterexample: a persisted entry of amplitude 1 that is 8 days old — strictly
older than 7 days — is **not** excluded by the load: its decayed amplitude
`exp(−8/7) ≈ 0.319` exceeds 0.1, so it is accepted into memory. -/
theorem c1_counterexample :
    (8 * 86400000 : ℤ) - 0 > sevenDayMillis
    ∧ loadPersistedFragments (8 * 86400000) [c1Entry] ≠ [] := by
  constructor
  · norm_num [sevenDayMillis]
  · rw [loadPersistedFragments_eq_filterMap]
    have hts : c1Entry.timestamp = some 0 := rfl
    have hamp : c1Entry.amplitude = 1 := rfl
    have harg : -(((8 * 86400000 : ℤ) - (0 : ℤ) : ℤ) : ℝ) / ((sevenDayMillis : ℤ) : ℝ)
        = -(8 / 7) := by
      norm_num [sevenDayMillis]
    have key : c1Entry.amplitude
        * Real.exp (-(((8 * 86400000 : ℤ) - (0 : ℤ) : ℤ) : ℝ) / ((sevenDayMillis : ℤ) : ℝ))
        > 0.1 := by
      rw [hamp, harg, one_mul]
      exact exp_neg_eight_sevenths_gt
    simp only [List.filterMap_cons, List.filterMap_nil, hts, Option.bind, if_pos key]
    simp

theorem coherenceLevel_le_one (w1 w2 : Wave) (now : ℤ) :
    (calculateInterference w1 w2 now).coherenceLevel ≤ 1 := by
  have hcos := Real.cos_le_one |w1.phase - w2.phase|
  have hexp : Real.exp (-|w1.frequency / w2.frequency - 1|) ≤ 1 := by
    rw [← Real.exp_zero]
    exact Real.exp_le_exp.mpr (neg_nonpos.mpr (abs_nonneg _))
  show (Real.cos |w1.phase - w2.phase| + Real.exp (-|w1.frequency / w2.frequency - 1|)) / 2 ≤ 1
  linarith

theorem alSet_forall_values {κ ν : Type} [DecidableEq κ] (Q : ν → Prop)
    (m : List (κ × ν)) (k : κ) (v : ν) (hm : ∀ e ∈ m, Q e.2) (hv : Q v) :
    ∀ e ∈ alSet m k v, Q e.2 := by
  induction m with
  | nil =>
      intro e he
      rcases (by simpa [alSet] using he) with h
      rw [h]
      exact hv
  | cons e₀ rest ih =>
      obtain ⟨k₀, w⟩ := e₀
      by_cases h0 : k₀ = k
      · rw [alSet_cons_eq k₀ w rest k v h0]
        intro e he
        rcases List.mem_cons.mp he with h1 | h1
        · rw [h1]
          exact hv
        · exact hm e (List.mem_cons_of_mem _ h1)
      · rw [alSet_cons_ne k₀ w rest k v h0]
        intro e he
        rcases List.mem_cons.mp he with h1 | h1
        · rw [h1]
          exact hm (k₀, w) (List.mem_cons_self _ _)
        · exact ih (fun e' he' => hm e' (List.mem_cons_of_mem _ he')) e h1

theorem scored_values (cfg : HolographicConfig) (now : ℤ) :
    ∀ (ps : List (Wave × Wave)) (acc : List ((ℕ × ℕ) × Pattern) × EngineState),
      (∀ e ∈ acc.1, cfg.interference.constructiveThreshold < e.2.coherenceLevel
        ∧ e.2.coherenceLevel ≤ 1) →
      ∀ e ∈ (ps.foldl (interferenceStep cfg now) acc).1,
        cfg.interference.constructiveThreshold < e.2.coherenceLevel
          ∧ e.2.coherenceLevel ≤ 1 := by
  intro ps
  induction ps with
  | nil => exact fun acc h => h
  | cons pr rest ih =>
      intro acc h
      rw [List.foldl_cons]
      apply ih
      unfold interferenceStep
      dsimp only
      by_cases hc : (calculateInterference pr.1 pr.2 now).coherenceLevel
          > cfg.interference.constructiveThreshold
      · rw [if_pos hc]
        exact alSet_forall_values
          (fun p => cfg.interference.constructiveThreshold < p.coherenceLevel
            ∧ p.coherenceLevel ≤ 1)
          acc.1 (pr.1.id, pr.2.id) _ h ⟨hc, coherenceLevel_le_one pr.1 pr.2 now⟩
      · rw [if_neg hc]
        exact h

theorem list_sum_le_length (l : List ℝ) (h : ∀ x ∈ l, x ≤ 1) :
    l.sum ≤ (l.length : ℝ) := by
  induction l with
  | nil => simp
  | cons x xs ih =>
      simp only [List.sum_cons, List.length_cons]
      have h1 := ih (fun y hy => h y (List.mem_cons_of_mem _ hy))
      have hx := h x (List.mem_cons_self _ _)
      push_cast
      linarith

theorem calculateSystemCoherence_props (cTh : ℝ) (rs : List ((ℕ × ℕ) × Pattern))
    (hth : 0 ≤ cTh)
    (hP : ∀ e ∈ rs, cTh < e.2.coherenceLevel ∧ e.2.coherenceLevel ≤ 1) :
    0 ≤ calculateSystemCoherence rs ∧ calculateSystemCoherence rs ≤ 1
    ∧ (rs = [] → calculateSystemCoherence rs = 0.5)
    ∧ (rs ≠ [] → calculateSystemCoherence rs
        = min 1 ((rs.map (fun e => e.2.coherenceLevel)).sum / (rs.length : ℝ)
            + min 0.2 ((rs.length : ℝ) * 0.05))) := by
  unfold calculateSystemCoherence
  by_cases h0 : rs.length = 0
  · have hnil : rs = [] := List.length_eq_zero.mp h0
    subst hnil
    refine ⟨by norm_num, by norm_num, fun _ => by norm_num, fun hne => absurd rfl hne⟩
  · rw [if_neg h0]
    have hne : rs ≠ [] := fun hc => h0 (by rw [hc]; rfl)
    have hlen : (rs.map (fun e => e.2.coherenceLevel)).length = rs.length :=
      List.length_map _ _
    have hpos : ∀ x ∈ rs.map (fun e => e.2.coherenceLevel), 0 < x := by
      intro x hx
      rcases List.mem_map.mp hx with ⟨e, he, hxe⟩
      have h1 := (hP e he).1
      rw [← hxe]
      linarith
    have hle1 : ∀ x ∈ rs.map (fun e => e.2.coherenceLevel), x ≤ 1 := by
      intro x hx
      rcases List.mem_map.mp hx with ⟨e, he, hxe⟩
      rw [← hxe]
      exact (hP e he).2
    have hvne : rs.map (fun e => e.2.coherenceLevel) ≠ [] := by
      intro hc
      apply hne
      have := congrArg List.length hc
      rw [hlen] at this
      exact List.length_eq_zero.mp this
    have hsum_pos : 0 < (rs.map (fun e => e.2.coherenceLevel)).sum :=
      List.sum_pos _ hpos hvne
    have hsum_le : (rs.map (fun e => e.2.coherenceLevel)).sum
        ≤ ((rs.map (fun e => e.2.coherenceLevel)).length : ℝ) :=
      list_sum_le_length _ hle1
    have hlpos : (0 : ℝ) < ((rs.map (fun e => e.2.coherenceLevel)).length : ℝ) := by
      rw [hlen]
      exact_mod_cast Nat.pos_of_ne_zero h0
    have havg_pos : 0 < (rs.map (fun e => e.2.coherenceLevel)).sum
        / ((rs.map (fun e => e.2.coherenceLevel)).length : ℝ) := div_pos hsum_pos hlpos
    have havg_le : (rs.map (fun e => e.2.coherenceLevel)).sum
        / ((rs.map (fun e => e.2.coherenceLevel)).length : ℝ) ≤ 1 :=
      (div_le_one hlpos).mpr hsum_le
    have hboost0 : 0 ≤ min (0.2 : ℝ) ((rs.length : ℝ) * 0.05) :=
      le_min (by norm_num) (by positivity)
    refine ⟨?_, ?_, fun hc => absurd hc hne, fun _ => ?_⟩
    · exact le_min (by norm_num) (by linarith)
    · have := min_le_left (1.0 : ℝ)
        ((rs.map (fun e => e.2.coherenceLevel)).sum
            / ((rs.map (fun e => e.2.coherenceLevel)).length : ℝ)
          + min 0.2 ((rs.length : ℝ) * 0.05))
      linarith
    · dsimp only
      rw [hlen]
      norm_num

/-- C4 amended: with a non-negative constructive threshold, `systemCoherence` lies in
`[0, 1]`; it equals 0.5 **whenever** no interference patterns are retained, and with
patterns retained it equals the mean coherence of the retained patterns plus
`min(0.2, patternCount × 0.05)`, clamped to at most 1 — a value that can itself be
exactly 0.5, so "equals 0.5 exactly when none are retained" does not hold. -/
theorem c4_system_coherence_amended (cfg : HolographicConfig) (waves : List Wave)
    (now : ℤ) (es : EngineState)
    (hth : 0 ≤ cfg.interference.constructiveThreshold) :
    0 ≤ (processWaveInterference cfg waves now es).1.systemCoherence
    ∧ (processWaveInterference cfg waves now es).1.systemCoherence ≤ 1
    ∧ ((processWaveInterference cfg waves now es).1.interferenceResults = [] →
        (processWaveInterference cfg waves now es).1.systemCoherence = 0.5)
    ∧ ((processWaveInterference cfg waves now es).1.interferenceResults ≠ [] →
        (processWaveInterference cfg waves now es).1.systemCoherence
          = min 1 (((processWaveInterference cfg waves now es).1.interferenceResults.map
                  (fun e => e.2.coherenceLevel)).sum
                / ((processWaveInterference cfg waves now es).1.interferenceResults.length : ℝ)
              + min 0.2
                (((processWaveInterference cfg waves now es).1.interferenceResults.length : ℝ)
                  * 0.05))) := by
  have hP := scored_values cfg now (pairsUpper waves) ([], es)
    (fun e he => absurd he (List.not_mem_nil e))
  exact calculateSystemCoherence_props cfg.interference.constructiveThreshold
    ((pairsUpper waves).foldl (interferenceStep cfg now) ([], es)).1 hth hP

/-- Witness for the amended C4 at the representative configuration and an empty wave
set (no retained patterns, coherence 0.5). -/
theorem c4_system_coherence_amended_witness :
    0 ≤ defaultConfig.interference.constructiveThreshold
    ∧ (0 ≤ (processWaveInterference defaultConfig [] 0 EngineState.empty).1.systemCoherence
      ∧ (processWaveInterference defaultConfig [] 0 EngineState.empty).1.systemCoherence ≤ 1
      ∧ ((processWaveInterference defaultConfig [] 0 EngineState.empty).1.interferenceResults
            = [] →
          (processWaveInterference defaultConfig [] 0 EngineState.empty).1.systemCoherence
            = 0.5)
      ∧ ((processWaveInterference defaultConfig [] 0 EngineState.empty).1.interferenceResults
            ≠ [] →
          (processWaveInterference defaultConfig [] 0 EngineState.empty).1.systemCoherence
            = min 1
              (((processWaveInterference defaultConfig [] 0
                      EngineState.empty).1.interferenceResults.map
                    (fun e => e.2.coherenceLevel)).sum
                  / ((processWaveInterference defaultConfig [] 0
                      EngineState.empty).1.interferenceResults.length : ℝ)
                + min 0.2
                  (((processWaveInterference defaultConfig [] 0
                      EngineState.empty).1.interferenceResults.length : ℝ) * 0.05)))) :=
  ⟨by norm_num [defaultConfig],
    c4_system_coherence_amended defaultConfig [] 0 EngineState.empty
      (by norm_num [defaultConfig])⟩

theorem c4_pair_coherence :
    (calculateInterference c4WaveA c4WaveB 0).coherenceLevel = 9 / 20 := by
  have h1 : |c4WaveA.phase - c4WaveB.phase| = Real.arccos (-(1 / 10)) := by
    show |Real.arccos (-(1 / 10)) - 0| = Real.arccos (-(1 / 10))
    rw [sub_zero]
    exact abs_of_nonneg (Real.arccos_nonneg _)
  have h2 : Real.cos (Real.arccos (-(1 / 10) : ℝ)) = -(1 / 10) :=
    Real.cos_arccos (by norm_num) (by norm_num)
  have h3 : |c4WaveA.frequency / c4WaveB.frequency - 1| = 0 := by
    show |(1 : ℝ) / 1 - 1| = 0
    norm_num
  show (Real.cos |c4WaveA.phase - c4WaveB.phase|
      + Real.exp (-|c4WaveA.frequency / c4WaveB.frequency - 1|)) / 2 = 9 / 20
  rw [h1, h2, h3, neg_zero, Real.exp_zero]
  norm_num

/-- C4 counterexample: with the representative configuration (constructive threshold
0.3 ≥ 0) and two signals of equal frequency whose phases differ by `arccos(−1/10)`, one
pattern of coherence 0.45 is retained, yet `systemCoherence = min(1, 0.45 + 0.05) = 0.5`
— so `systemCoherence = 0.5` does **not** imply that no patterns were retained. -/
theorem c4_counterexample :
    0 ≤ defaultConfig.interference.constructiveThreshold
    ∧ (processWaveInterference defaultConfig [c4WaveA, c4WaveB] 0
        EngineState.empty).1.interferenceResults ≠ []
    ∧ (processWaveInterference defaultConfig [c4WaveA, c4WaveB] 0
        EngineState.empty).1.systemCoherence = 0.5 := by
  have hpairs : pairsUpper [c4WaveA, c4WaveB] = [(c4WaveA, c4WaveB)] := rfl
  have hcond : (calculateInterference c4WaveA c4WaveB 0).coherenceLevel
      > defaultConfig.interference.constructiveThreshold := by
    rw [c4_pair_coherence]
    norm_num [defaultConfig]
  have hres : (processWaveInterference defaultConfig [c4WaveA, c4WaveB] 0
      EngineState.empty).1.interferenceResults
      = [((0, 1), calculateInterference c4WaveA c4WaveB 0)] := by
    show ((pairsUpper [c4WaveA, c4WaveB]).foldl (interferenceStep defaultConfig 0)
        ([], EngineState.empty)).1 = _
    rw [hpairs, List.foldl_cons, List.foldl_nil]
    unfold interferenceStep
    dsimp only
    rw [if_pos hcond]
    rfl
  refine ⟨by norm_num [defaultConfig], ?_, ?_⟩
  · rw [hres]
    exact List.cons_ne_nil _ _
  · show calculateSystemCoherence ((pairsUpper [c4WaveA, c4WaveB]).foldl
        (interferenceStep defaultConfig 0) ([], EngineState.empty)).1 = 0.5
    have hres' : ((pairsUpper [c4WaveA, c4WaveB]).foldl (interferenceStep defaultConfig 0)
        ([], EngineState.empty)).1
        = [((0, 1), calculateInterference c4WaveA c4WaveB 0)] := hres
    rw [hres']
    unfold calculateSystemCoherence
    rw [if_neg (by norm_num)]
    dsimp only [List.map_cons, List.map_nil, List.sum_cons, List.sum_nil,
      List.length_cons, List.length_nil]
    rw [c4_pair_coherence]
    norm_num

theorem orderedInsert_eq_append {α : Type} (r : α → α → Prop) [DecidableRel r] (a : α) :
    ∀ (l : List α), (∀ b ∈ l, ¬ r a b) → List.orderedInsert r a l = l ++ [a]
  | [], _ => rfl
  | b :: bs, h => by
      rw [List.orderedInsert, if_neg (h b (List.mem_cons_self _ _)),
        orderedInsert_eq_append r a bs (fun x hx => h x (List.mem_cons_of_mem _ hx))]
      rfl

theorem sortTimeDesc_of_ascending :
    ∀ (l : List Fragment), List.Pairwise (fun a b => a.timestamp < b.timestamp) l →
      sortTimeDesc l = l.reverse := by
  intro l
  induction l with
  | nil => intro _; rfl
  | cons f fs ih =>
      intro h
      rw [List.pairwise_cons] at h
      show List.orderedInsert _ f (List.insertionSort _ fs) = _
      have hfs : List.insertionSort (fun a b => b.timestamp ≤ a.timestamp) fs
          = fs.reverse := ih h.2
      rw [hfs, orderedInsert_eq_append (fun a b => b.timestamp ≤ a.timestamp) f fs.reverse
        (fun b hb => not_le.mpr (h.1 b (List.mem_reverse.mp hb))), List.reverse_cons]

theorem sortTimeDesc_length (l : List Fragment) : (sortTimeDesc l).length = l.length :=
  List.length_insertionSort _ l

theorem cleanupOldFragments_noop (cfg : HolographicConfig) (region : String)
    (st : MemoryState) (hall : ∀ f ∈ st.fragments, f.sourceRegion = region)
    (hlen : st.fragments.length ≤ cfg.memory.maxFragmentsPerRegion) :
    cleanupOldFragments cfg region st = st := by
  unfold cleanupOldFragments
  dsimp only
  have hfil : st.fragments.filter (fun f => f.sourceRegion = region) = st.fragments :=
    List.filter_eq_self.mpr (fun f hf => by simp [hall f hf])
  rw [hfil, if_neg ?hc]
  case hc =>
    rw [sortTimeDesc_length]
    exact not_lt.mpr hlen

theorem callFragments_length : ∀ (i : ℕ) (cs : List StoreCall),
    (callFragments i cs).length = cs.length
  | _, [] => rfl
  | i, _ :: cs => by
      show (callFragments (i + 1) cs).length + 1 = _
      rw [callFragments_length (i + 1) cs]
      rfl

theorem callFragments_append_singleton : ∀ (i : ℕ) (cs : List StoreCall) (z : StoreCall),
    callFragments i (cs ++ [z]) = callFragments i cs ++ [callFragment z (i + cs.length)]
  | i, [], z => by simp [callFragments]
  | i, c :: cs, z => by
      show callFragment c i :: callFragments (i + 1) (cs ++ [z]) = _
      rw [callFragments_append_singleton (i + 1) cs z]
      simp [callFragments, Nat.add_assoc, Nat.add_comm 1 cs.length]

theorem mem_callFragments : ∀ (i : ℕ) (cs : List StoreCall) (g : Fragment),
    g ∈ callFragments i cs →
      (∃ c ∈ cs, g.timestamp = c.time ∧ g.sourceRegion = c.sourceRegion) ∧ i ≤ g.id := by
  intro i cs
  induction cs generalizing i with
  | nil => intro g hg; exact absurd hg (List.not_mem_nil g)
  | cons c cs ih =>
      intro g hg
      rcases List.mem_cons.mp hg with h1 | h1
      · subst h1
        exact ⟨⟨c, List.mem_cons_self _ _, rfl, rfl⟩, le_refl _⟩
      · rcases ih (i + 1) g h1 with ⟨⟨c', hc', ht, hr⟩, hid⟩
        exact ⟨⟨c', List.mem_cons_of_mem _ hc', ht, hr⟩, le_trans (Nat.le_succ i) hid⟩

theorem callFragments_pairwise_time : ∀ (i : ℕ) (cs : List StoreCall),
    List.Pairwise (fun a b => a.time < b.time) cs →
    List.Pairwise (fun f g => f.timestamp < g.timestamp) (callFragments i cs) := by
  intro i cs
  induction cs generalizing i with
  | nil => intro _; exact List.Pairwise.nil
  | cons c cs ih =>
      intro h
      rw [List.pairwise_cons] at h
      show List.Pairwise _ (callFragment c i :: callFragments (i + 1) cs)
      rw [List.pairwise_cons]
      constructor
      · intro g hg
        rcases (mem_callFragments (i + 1) cs g hg).1 with ⟨c', hc', ht, _⟩
        show (callFragment c i).timestamp < g.timestamp
        rw [ht]
        exact h.1 c' hc'
      · exact ih (i + 1) h.2

theorem callFragments_region (region : String) : ∀ (i : ℕ) (cs : List StoreCall),
    (∀ c ∈ cs, c.sourceRegion = region) →
    ∀ f ∈ callFragments i cs, f.sourceRegion = region := by
  intro i cs hreg f hf
  rcases (mem_callFragments i cs f hf).1 with ⟨c', hc', _, hr⟩
  rw [hr]
  exact hreg c' hc'

theorem storeOne_eq (cfg : HolographicConfig) (c : StoreCall) (st : MemoryState) :
    storeOne cfg c st
      = (st.nextFragmentId, cleanupOldFragments cfg c.sourceRegion
          { st with
            fragments := st.fragments ++ [callFragment c st.nextFragmentId]
            coherenceMap := alSet st.coherenceMap st.nextFragmentId
              (callFragment c st.nextFragmentId).amplitude
            nextFragmentId := st.nextFragmentId + 1 }) := rfl

theorem storeMany_append (cfg : HolographicConfig) :
    ∀ (xs ys : List StoreCall) (st : MemoryState),
      storeMany cfg (xs ++ ys) st
        = ((storeMany cfg xs st).1 ++ (storeMany cfg ys (storeMany cfg xs st).2).1,
            (storeMany cfg ys (storeMany cfg xs st).2).2)
  | [], ys, st => rfl
  | x :: xs, ys, st => by
      show (let r := storeOne cfg x st
            let rest := storeMany cfg (xs ++ ys) r.2
            ((r.1 :: rest.1 : List ℕ), rest.2)) = _
      dsimp only
      rw [storeMany_append cfg xs ys (storeOne cfg x st).2]
      rfl

theorem storeMany_no_evict (cfg : HolographicConfig) (region : String) :
    ∀ (calls : List StoreCall) (st : MemoryState),
      (∀ c ∈ calls, c.sourceRegion = region) →
      (∀ f ∈ st.fragments, f.sourceRegion = region) →
      st.fragments.length + calls.length ≤ cfg.memory.maxFragmentsPerRegion →
      (storeMany cfg calls st).1 = List.range' st.nextFragmentId calls.length
      ∧ (storeMany cfg calls st).2.fragments
          = st.fragments ++ callFragments st.nextFragmentId calls
      ∧ (storeMany cfg calls st).2.nextFragmentId = st.nextFragmentId + calls.length := by
  intro calls
  induction calls with
  | nil =>
      intro st _ _ _
      exact ⟨rfl, by simp [storeMany, callFragments], by simp [storeMany]⟩
  | cons c cs ih =>
      intro st hreg hall hlen
      have hcr : c.sourceRegion = region := hreg c (List.mem_cons_self _ _)
      have hall1 : ∀ f ∈ st.fragments ++ [callFragment c st.nextFragmentId],
          f.sourceRegion = region := by
        intro f hf
        rcases List.mem_append.mp hf with h1 | h1
        · exact hall f h1
        · rcases List.mem_singleton.mp h1 with h2
          rw [h2]
          exact hcr
      have hclean : cleanupOldFragments cfg c.sourceRegion
          { st with
            fragments := st.fragments ++ [callFragment c st.nextFragmentId]
            coherenceMap := alSet st.coherenceMap st.nextFragmentId
              (callFragment c st.nextFragmentId).amplitude
            nextFragmentId := st.nextFragmentId + 1 }
          = { st with
              fragments := st.fragments ++ [callFragment c st.nextFragmentId]
              coherenceMap := alSet st.coherenceMap st.nextFragmentId
                (callFragment c st.nextFragmentId).amplitude
              nextFragmentId := st.nextFragmentId + 1 } := by
        rw [hcr]
        apply cleanupOldFragments_noop
        · exact hall1
        · show (st.fragments ++ [callFragment c st.nextFragmentId]).length ≤ _
          rw [List.length_append]
          simp only [List.length_cons, List.length_nil, List.length_cons] at hlen ⊢
          omega
      have hstep : storeMany cfg (c :: cs) st
          = ((storeOne cfg c st).1 :: (storeMany cfg cs (storeOne cfg c st).2).1,
              (storeMany cfg cs (storeOne cfg c st).2).2) := rfl
      rw [hstep, storeOne_eq cfg c st, hclean]
      have hih := ih { st with
          fragments := st.fragments ++ [callFragment c st.nextFragmentId]
          coherenceMap := alSet st.coherenceMap st.nextFragmentId
            (callFragment c st.nextFragmentId).amplitude
          nextFragmentId := st.nextFragmentId + 1 }
        (fun c' hc' => hreg c' (List.mem_cons_of_mem _ hc')) hall1
        (by
          show (st.fragments ++ [callFragment c st.nextFragmentId]).length + cs.length ≤ _
          rw [List.length_append]
          simp only [List.length_cons, List.length_nil] at hlen ⊢
          omega)
      refine ⟨?_, ?_, ?_⟩
      · show st.nextFragmentId :: (storeMany cfg cs _).1 = _
        rw [hih.1]
        rfl
      · show (storeMany cfg cs _).2.fragments = _
        rw [hih.2.1]
        show (st.fragments ++ [callFragment c st.nextFragmentId])
            ++ callFragments (st.nextFragmentId + 1) cs = _
        rw [List.append_assoc, List.singleton_append]
        rfl
      · show (storeMany cfg cs _).2.nextFragmentId = _
        rw [hih.2.2]
        show st.nextFragmentId + 1 + cs.length = st.nextFragmentId + (cs.length + 1)
        omega

theorem cleanupOldFragments_evict (cfg : HolographicConfig) (region : String)
    (st : MemoryState) (calls : List StoreCall)
    (hfr : st.fragments = callFragments 0 calls)
    (hreg : ∀ c ∈ calls, c.sourceRegion = region)
    (htime : List.Pairwise (fun a b => a.time < b.time) calls)
    (hlen : calls.length = cfg.memory.maxFragmentsPerRegion + 1) :
    (cleanupOldFragments cfg region st).fragments = callFragments 1 calls.tail := by
  obtain ⟨c₀, rest, hct⟩ : ∃ c₀ rest, calls = c₀ :: rest := by
    cases calls with
    | nil => rw [List.length_nil] at hlen; omega
    | cons a l => exact ⟨a, l, rfl⟩
  subst hct
  have hcf : callFragments 0 (c₀ :: rest) = callFragment c₀ 0 :: callFragments 1 rest := rfl
  have hrest_len : rest.length = cfg.memory.maxFragmentsPerRegion := by
    rw [List.length_cons] at hlen
    omega
  unfold cleanupOldFragments
  dsimp only
  have hall : ∀ f ∈ st.fragments, f.sourceRegion = region := by
    rw [hfr]
    exact callFragments_region region 0 _ hreg
  have hfil : st.fragments.filter (fun f => f.sourceRegion = region) = st.fragments :=
    List.filter_eq_self.mpr (fun f hf => by simp [hall f hf])
  rw [hfil]
  have hsort : sortTimeDesc st.fragments = st.fragments.reverse := by
    apply sortTimeDesc_of_ascending
    rw [hfr]
    exact callFragments_pairwise_time 0 _ htime
  rw [hsort]
  have hlen2 : st.fragments.reverse.length = cfg.memory.maxFragmentsPerRegion + 1 := by
    rw [List.length_reverse, hfr, callFragments_length]
    exact hlen
  rw [if_pos (by rw [hlen2]; omega)]
  have hdrop : st.fragments.reverse.drop cfg.memory.maxFragmentsPerRegion
      = [callFragment c₀ 0] := by
    rw [hfr, hcf, List.reverse_cons]
    have hlenrev : (callFragments 1 rest).reverse.length
        = cfg.memory.maxFragmentsPerRegion := by
      rw [List.length_reverse, callFragments_length]
      exact hrest_len
    rw [← hlenrev]
    exact List.drop_left _ _
  rw [hdrop]
  dsimp only
  rw [hfr, hcf, List.filter_cons]
  have hid0 : (callFragment c₀ 0).id = 0 := rfl
  rw [if_neg (by simp [hid0])]
  apply List.filter_eq_self.mpr
  intro f hf
  have hge := (mem_callFragments 1 rest f hf).2
  have h0 : ¬ ((callFragment c₀ 0).id = f.id) := by
    rw [hid0]
    omega
  simp [h0]

theorem c2_eviction_core (cfg : HolographicConfig) (region : String)
    (calls : List StoreCall)
    (hreg : ∀ c ∈ calls, c.sourceRegion = region)
    (htime : List.Pairwise (fun a b => a.time < b.time) calls)
    (hlen : calls.length = cfg.memory.maxFragmentsPerRegion + 1) :
    (storeMany cfg calls MemoryState.empty).1 = List.range calls.length
    ∧ (storeMany cfg calls MemoryState.empty).2.fragments = callFragments 1 calls.tail := by
  rcases List.eq_nil_or_concat' calls with hnil | ⟨cs, z, hcz⟩
  · rw [hnil, List.length_nil] at hlen
    omega
  subst hcz
  have hcs_len : cs.length = cfg.memory.maxFragmentsPerRegion := by
    rw [List.length_append, List.length_cons, List.length_nil] at hlen
    omega
  have hfill := storeMany_no_evict cfg region cs MemoryState.empty
    (fun c hc => hreg c (List.mem_append_left _ hc))
    (fun f hf => absurd hf (List.not_mem_nil f))
    (by
      show MemoryState.empty.fragments.length + cs.length ≤ _
      rw [hcs_len]
      simp [MemoryState.empty])
  have hSfrag : (storeMany cfg cs MemoryState.empty).2.fragments = callFragments 0 cs := by
    rw [hfill.2.1]
    rfl
  have hSnext : (storeMany cfg cs MemoryState.empty).2.nextFragmentId = cs.length := by
    rw [hfill.2.2]
    exact Nat.zero_add _
  have hz : storeMany cfg [z] (storeMany cfg cs MemoryState.empty).2
      = ([(storeMany cfg cs MemoryState.empty).2.nextFragmentId],
          (storeOne cfg z (storeMany cfg cs MemoryState.empty).2).2) := rfl
  have hzr : z.sourceRegion = region :=
    hreg z (List.mem_append_right _ (List.mem_singleton.mpr rfl))
  have hInsFrag : ((storeMany cfg cs MemoryState.empty).2.fragments
        ++ [callFragment z (storeMany cfg cs MemoryState.empty).2.nextFragmentId])
      = callFragments 0 (cs ++ [z]) := by
    rw [hSfrag, hSnext, callFragments_append_singleton 0 cs z, Nat.zero_add]
  have hstoreOne : (storeOne cfg z (storeMany cfg cs MemoryState.empty).2).2.fragments
      = callFragments 1 (cs ++ [z]).tail := by
    rw [storeOne_eq]
    dsimp only
    rw [hzr]
    exact cleanupOldFragments_evict cfg region _ (cs ++ [z]) hInsFrag hreg htime hlen
  constructor
  · rw [storeMany_append cfg cs [z] MemoryState.empty, hz]
    dsimp only
    rw [hfill.1, hSnext]
    have hlen3 : (cs ++ [z]).length = cs.length + 1 := by
      rw [List.length_append, List.length_cons, List.length_nil]
    have hr1 : List.range (cs.length + 1) = List.range cs.length ++ [cs.length] :=
      List.range_succ cs.length
    rw [hlen3, hr1, List.range_eq_range']
    rfl
  · rw [storeMany_append cfg cs [z] MemoryState.empty, hz]
    dsimp only
    exact hstoreOne

/-- C2: storing `N+1` fragments (strictly increasing creation instants) into one region
of an empty store with region cap `N` always succeeds — the returned ids are exactly
`0, …, N` — and leaves exactly the `N` most recently created fragments of that region
(the oldest one is evicted): the region's fragments are precisely those of the last `N`
store calls, `N = maxFragmentsPerRegion` many. -/
theorem c2_store_eviction (cfg : HolographicConfig) (region : String)
    (calls : List StoreCall)
    (hreg : ∀ c ∈ calls, c.sourceRegion = region)
    (htime : List.Pairwise (fun a b => a.time < b.time) calls)
    (hlen : calls.length = cfg.memory.maxFragmentsPerRegion + 1) :
    (storeMany cfg calls MemoryState.empty).1 = List.range calls.length
    ∧ getFragmentsByRegion region (storeMany cfg calls MemoryState.empty).2
        = callFragments 1 calls.tail
    ∧ (getFragmentsByRegion region (storeMany cfg calls MemoryState.empty).2).length
        = cfg.memory.maxFragmentsPerRegion := by
  have hcore := c2_eviction_core cfg region calls hreg htime hlen
  have htail_reg : ∀ c ∈ calls.tail, c.sourceRegion = region := fun c hc =>
    hreg c (List.mem_of_mem_tail hc)
  have hregion : getFragmentsByRegion region (storeMany cfg calls MemoryState.empty).2
      = callFragments 1 calls.tail := by
    unfold getFragmentsByRegion
    rw [hcore.2]
    exact List.filter_eq_self.mpr (fun f hf => by
      simp [callFragments_region region 1 calls.tail htail_reg f hf])
  refine ⟨hcore.1, hregion, ?_⟩
  rw [hregion, callFragments_length]
  have htl : calls.tail.length = calls.length - 1 := List.length_tail calls
  omega

/-- Witness for C2: cap 1, two stores into region `"r"`; the second store evicts the
first fragment. -/
theorem c2_store_eviction_witness :
    ((∀ c ∈ c2Calls, c.sourceRegion = "r")
      ∧ List.Pairwise (fun a b => a.time < b.time) c2Calls
      ∧ c2Calls.length = c2Cfg.memory.maxFragmentsPerRegion + 1)
    ∧ ((storeMany c2Cfg c2Calls MemoryState.empty).1 = List.range c2Calls.length
      ∧ getFragmentsByRegion "r" (storeMany c2Cfg c2Calls MemoryState.empty).2
          = callFragments 1 c2Calls.tail
      ∧ (getFragmentsByRegion "r" (storeMany c2Cfg c2Calls MemoryState.empty).2).length
          = c2Cfg.memory.maxFragmentsPerRegion) := by
  refine ⟨⟨?h1, ?h2, ?h3⟩, c2_store_eviction c2Cfg "r" c2Calls ?h1 ?h2 ?h3⟩
  case h1 =>
    intro c hc
    rcases List.mem_cons.mp hc with h | h
    · rw [h]
    · rcases List.mem_singleton.mp (by simpa using h) with h'
      rw [h']
  case h2 =>
    unfold c2Calls
    refine List.Pairwise.cons ?_ (List.pairwise_singleton _ _)
    intro b hb
    rcases List.mem_singleton.mp hb with h'
    rw [h']
    norm_num
  case h3 => rfl

theorem scored_keeps_behaviors (cfg : HolographicConfig) (now : ℤ) :
    ∀ (ps : List (Wave × Wave)) (acc : List ((ℕ × ℕ) × Pattern) × EngineState),
      (ps.foldl (interferenceStep cfg now) acc).2.emergentBehaviors
          = acc.2.emergentBehaviors
      ∧ (ps.foldl (interferenceStep cfg now) acc).2.nextBehaviorId
          = acc.2.nextBehaviorId := by
  intro ps
  induction ps with
  | nil => exact fun acc => ⟨rfl, rfl⟩
  | cons pr rest ih =>
      intro acc
      rw [List.foldl_cons]
      rcases ih (interferenceStep cfg now acc pr) with ⟨h1, h2⟩
      refine ⟨h1.trans ?_, h2.trans ?_⟩ <;>
        · unfold interferenceStep
          dsimp only
          split <;> rfl

theorem detect_keeps_patterns (cfg : HolographicConfig) (now : ℤ) :
    ∀ (rs : List ((ℕ × ℕ) × Pattern)) (acc : List Behavior × EngineState),
      (rs.foldl (detectStep cfg now) acc).2.activePatterns = acc.2.activePatterns := by
  intro rs
  induction rs with
  | nil => exact fun acc => rfl
  | cons e rest ih =>
      intro acc
      rw [List.foldl_cons]
      refine (ih (detectStep cfg now acc e)).trans ?_
      unfold detectStep
      dsimp only
      split <;> rfl

theorem detect_fold_growth (cfg : HolographicConfig) (now : ℤ) :
    ∀ (rs : List ((ℕ × ℕ) × Pattern)) (acc : List Behavior × EngineState),
      (∀ k ∈ alKeys acc.2.emergentBehaviors, k < acc.2.nextBehaviorId) →
      ((∀ k ∈ alKeys (rs.foldl (detectStep cfg now) acc).2.emergentBehaviors,
          k < (rs.foldl (detectStep cfg now) acc).2.nextBehaviorId)
        ∧ acc.2.emergentBehaviors.length
            ≤ (rs.foldl (detectStep cfg now) acc).2.emergentBehaviors.length
        ∧ ((∃ e ∈ rs, e.2.coherenceLevel > cfg.interference.emergentThreshold
              ∧ e.2.emergentContent.isSome) →
            acc.2.emergentBehaviors.length
              < (rs.foldl (detectStep cfg now) acc).2.emergentBehaviors.length)) := by
  intro rs
  induction rs with
  | nil =>
      intro acc hwf
      refine ⟨hwf, le_refl _, ?_⟩
      rintro ⟨e, he, _⟩
      exact absurd he (List.not_mem_nil e)
  | cons e rest ih =>
      intro acc hwf
      rw [List.foldl_cons]
      by_cases hq : e.2.coherenceLevel > cfg.interference.emergentThreshold
          ∧ e.2.emergentContent.isSome
      · have hfresh : ¬ acc.2.nextBehaviorId ∈ alKeys acc.2.emergentBehaviors := by
          intro hc
          exact absurd (hwf _ hc) (lt_irrefl _)
        have hstep : detectStep cfg now acc e
            = (acc.1 ++ [{ triggerPattern := e.2
                           behaviorType := classifyBehaviorType e.2
                           confidence := e.2.coherenceLevel
                           insight := e.2.emergentContent.getD ""
                           timestamp := now }],
                { acc.2 with
                  emergentBehaviors := alSet acc.2.emergentBehaviors acc.2.nextBehaviorId
                    { triggerPattern := e.2
                      behaviorType := classifyBehaviorType e.2
                      confidence := e.2.coherenceLevel
                      insight := e.2.emergentContent.getD ""
                      timestamp := now }
                  nextBehaviorId := acc.2.nextBehaviorId + 1 }) := by
          unfold detectStep
          dsimp only
          rw [if_pos hq]
        have hwf' : ∀ k ∈ alKeys (detectStep cfg now acc e).2.emergentBehaviors,
            k < (detectStep cfg now acc e).2.nextBehaviorId := by
          rw [hstep]
          intro k hk
          rcases alKeys_alSet_sub _ _ _ _ hk with h1 | h1
          · rw [h1]
            exact Nat.lt_succ_self _
          · exact Nat.lt_succ_of_lt (hwf k h1)
        have hlen' : (detectStep cfg now acc e).2.emergentBehaviors.length
            = acc.2.emergentBehaviors.length + 1 := by
          rw [hstep]
          exact alSet_length_of_not_mem _ _ _ hfresh
        rcases ih (detectStep cfg now acc e) hwf' with ⟨h1, h2, _⟩
        refine ⟨h1, ?_, fun _ => ?_⟩
        · rw [hlen'] at h2
          omega
        · rw [hlen'] at h2
          omega
      · have hstep : detectStep cfg now acc e = acc := by
          unfold detectStep
          dsimp only
          rw [if_neg hq]
        rw [hstep]
        rcases ih acc hwf with ⟨h1, h2, h3⟩
        refine ⟨h1, h2, ?_⟩
        rintro ⟨e', he', hq'⟩
        rcases List.mem_cons.mp he' with h4 | h4
        · rw [h4] at hq'
          exact absurd hq' hq
        · exact h3 ⟨e', h4, hq'⟩

theorem scored_acc1_keys_mono (cfg : HolographicConfig) (now : ℤ) :
    ∀ (ps : List (Wave × Wave)) (acc : List ((ℕ × ℕ) × Pattern) × EngineState) (k : ℕ × ℕ),
      k ∈ alKeys acc.1 → k ∈ alKeys (ps.foldl (interferenceStep cfg now) acc).1 := by
  intro ps
  induction ps with
  | nil => exact fun acc k hk => hk
  | cons pr rest ih =>
      intro acc k hk
      rw [List.foldl_cons]
      apply ih
      unfold interferenceStep
      dsimp only
      split
      · exact mem_alKeys_alSet _ _ _ _ hk
      · exact hk

theorem scored_retained_mem (cfg : HolographicConfig) (now : ℤ) :
    ∀ (ps : List (Wave × Wave)) (acc : List ((ℕ × ℕ) × Pattern) × EngineState)
      (pr : Wave × Wave), pr ∈ ps →
      (calculateInterference pr.1 pr.2 now).coherenceLevel
          > cfg.interference.constructiveThreshold →
      (pr.1.id, pr.2.id) ∈ alKeys (ps.foldl (interferenceStep cfg now) acc).1 := by
  intro ps
  induction ps with
  | nil => exact fun acc pr hpr _ => absurd hpr (List.not_mem_nil pr)
  | cons q rest ih =>
      intro acc pr hpr hret
      rcases List.mem_cons.mp hpr with h1 | h1
      · subst h1
        rw [List.foldl_cons]
        apply scored_acc1_keys_mono cfg now rest
        unfold interferenceStep
        dsimp only
        rw [if_pos hret]
        exact self_mem_alKeys_alSet _ _ _
      · rw [List.foldl_cons]
        exact ih _ pr h1 hret

theorem scored_acc1_sub_patterns (cfg : HolographicConfig) (now : ℤ) :
    ∀ (ps : List (Wave × Wave)) (acc : List ((ℕ × ℕ) × Pattern) × EngineState),
      (∀ k ∈ alKeys acc.1, k ∈ alKeys acc.2.activePatterns) →
      ∀ k ∈ alKeys (ps.foldl (interferenceStep cfg now) acc).1,
        k ∈ alKeys (ps.foldl (interferenceStep cfg now) acc).2.activePatterns := by
  intro ps
  induction ps with
  | nil => exact fun acc h => h
  | cons pr rest ih =>
      intro acc h
      rw [List.foldl_cons]
      apply ih
      unfold interferenceStep
      dsimp only
      split
      · intro k hk
        rcases alKeys_alSet_sub _ _ _ _ hk with h1 | h1
        · rw [h1]
          exact self_mem_alKeys_alSet _ _ _
        · exact mem_alKeys_alSet _ _ _ _ (h k h1)
      · exact h

theorem scored_patterns_length (cfg : HolographicConfig) (now : ℤ) :
    ∀ (ps : List (Wave × Wave)) (acc : List ((ℕ × ℕ) × Pattern) × EngineState),
      (∀ pr ∈ ps, (calculateInterference pr.1 pr.2 now).coherenceLevel
          > cfg.interference.constructiveThreshold →
        (pr.1.id, pr.2.id) ∈ alKeys acc.2.activePatterns) →
      (ps.foldl (interferenceStep cfg now) acc).2.activePatterns.length
        = acc.2.activePatterns.length := by
  intro ps
  induction ps with
  | nil => exact fun acc _ => rfl
  | cons pr rest ih =>
      intro acc h
      rw [List.foldl_cons]
      by_cases hret : (calculateInterference pr.1 pr.2 now).coherenceLevel
          > cfg.interference.constructiveThreshold
      · have hstep : interferenceStep cfg now acc pr
            = (alSet acc.1 (pr.1.id, pr.2.id) (calculateInterference pr.1 pr.2 now),
                { acc.2 with
                  activePatterns :=
                    alSet acc.2.activePatterns (pr.1.id, pr.2.id)
                      (calculateInterference pr.1 pr.2 now) }) := by
          unfold interferenceStep
          dsimp only
          rw [if_pos hret]
        rw [hstep]
        have hmem := h pr (List.mem_cons_self _ _) hret
        have hih := ih
          (alSet acc.1 (pr.1.id, pr.2.id) (calculateInterference pr.1 pr.2 now),
            { acc.2 with
              activePatterns :=
                alSet acc.2.activePatterns (pr.1.id, pr.2.id)
                  (calculateInterference pr.1 pr.2 now) })
          (fun qr hqr hqret =>
            mem_alKeys_alSet _ _ _ _ (h qr (List.mem_cons_of_mem _ hqr) hqret))
        rw [hih]
        exact alSet_length_of_mem _ _ _ hmem
      · have hstep : interferenceStep cfg now acc pr = acc := by
          unfold interferenceStep
          dsimp only
          rw [if_neg hret]
        rw [hstep]
        exact ih acc (fun qr hqr hqret => h qr (List.mem_cons_of_mem _ hqr) hqret)

theorem scored_get_preserved (cfg : HolographicConfig) (now : ℤ) :
    ∀ (ps : List (Wave × Wave)) (acc : List ((ℕ × ℕ) × Pattern) × EngineState) (k : ℕ × ℕ),
      (∀ qr ∈ ps, (qr.1.id, qr.2.id) ≠ k) →
      alGet (ps.foldl (interferenceStep cfg now) acc).1 k = alGet acc.1 k := by
  intro ps
  induction ps with
  | nil => exact fun acc k _ => rfl
  | cons q rest ih =>
      intro acc k hk
      rw [List.foldl_cons]
      rw [ih _ k (fun qr hqr => hk qr (List.mem_cons_of_mem _ hqr))]
      unfold interferenceStep
      dsimp only
      split
      · exact alGet_alSet_ne _ _ (hk q (List.mem_cons_self _ _))
      · rfl

theorem scored_value (cfg : HolographicConfig) (now : ℤ) :
    ∀ (ps : List (Wave × Wave)) (acc : List ((ℕ × ℕ) × Pattern) × EngineState)
      (pr : Wave × Wave),
      List.Pairwise (fun a b : Wave × Wave => (a.1.id, a.2.id) ≠ (b.1.id, b.2.id)) ps →
      pr ∈ ps →
      (calculateInterference pr.1 pr.2 now).coherenceLevel
          > cfg.interference.constructiveThreshold →
      alGet (ps.foldl (interferenceStep cfg now) acc).1 (pr.1.id, pr.2.id)
        = some (calculateInterference pr.1 pr.2 now) := by
  intro ps
  induction ps with
  | nil => exact fun acc pr _ hpr _ => absurd hpr (List.not_mem_nil pr)
  | cons q rest ih =>
      intro acc pr hpw hmem hret
      rw [List.pairwise_cons] at hpw
      rcases List.mem_cons.mp hmem with h1 | h1
      · subst h1
        rw [List.foldl_cons,
          scored_get_preserved cfg now rest _ (pr.1.id, pr.2.id)
            (fun qr hqr => (hpw.1 qr hqr).symm)]
        unfold interferenceStep
        dsimp only
        rw [if_pos hret]
        exact alGet_alSet_self _ _ _
      · rw [List.foldl_cons]
        exact ih _ pr hpw.2 h1 hret

theorem mem_pairsUpper {α : Type} : ∀ (l : List α) (pr : α × α),
    pr ∈ pairsUpper l → pr.1 ∈ l ∧ pr.2 ∈ l := by
  intro l
  induction l with
  | nil => exact fun pr hpr => absurd hpr (List.not_mem_nil pr)
  | cons x xs ih =>
      intro pr hpr
      rcases List.mem_append.mp hpr with h1 | h1
      · rcases List.mem_map.mp h1 with ⟨y, hy, hya⟩
        rw [← hya]
        exact ⟨List.mem_cons_self _ _, List.mem_cons_of_mem _ hy⟩
      · rcases ih pr h1 with ⟨ha, hb⟩
        exact ⟨List.mem_cons_of_mem _ ha, List.mem_cons_of_mem _ hb⟩

theorem pairsUpper_keys_pairwise : ∀ (l : List Wave),
    List.Pairwise (fun a b : Wave => a.id ≠ b.id) l →
    List.Pairwise (fun a b : Wave × Wave => (a.1.id, a.2.id) ≠ (b.1.id, b.2.id))
      (pairsUpper l) := by
  intro l
  induction l with
  | nil => exact fun _ => List.Pairwise.nil
  | cons x xs ih =>
      intro h
      rw [List.pairwise_cons] at h
      show List.Pairwise _ (xs.map (fun y => (x, y)) ++ pairsUpper xs)
      rw [List.pairwise_append]
      refine ⟨?_, ih h.2, ?_⟩
      · exact List.Pairwise.map _
          (fun a b hab heq => hab (congrArg Prod.snd heq)) h.2
      · intro a ha b hb
        rcases List.mem_map.mp ha with ⟨y, _, hya⟩
        have hb1 := (mem_pairsUpper xs b hb).1
        intro heq
        have hfst : a.1.id = b.1.id := congrArg Prod.fst heq
        rw [← hya] at hfst
        exact h.1 b.1 hb1 hfst

theorem process_effects (cfg : HolographicConfig) (waves : List Wave) (now : ℤ)
    (es : EngineState)
    (hwf : ∀ k ∈ alKeys es.emergentBehaviors, k < es.nextBehaviorId)
    (hids : List.Pairwise (fun a b : Wave => a.id ≠ b.id) waves)
    (hqual : ∃ pr ∈ pairsUpper waves,
        (calculateInterference pr.1 pr.2 now).coherenceLevel
            > cfg.interference.constructiveThreshold
        ∧ (calculateInterference pr.1 pr.2 now).coherenceLevel
            > cfg.interference.emergentThreshold
        ∧ (calculateInterference pr.1 pr.2 now).emergentContent.isSome = true) :
    es.emergentBehaviors.length
        < (processWaveInterference cfg waves now es).2.emergentBehaviors.length
    ∧ (∀ k ∈ alKeys (processWaveInterference cfg waves now es).2.emergentBehaviors,
        k < (processWaveInterference cfg waves now es).2.nextBehaviorId)
    ∧ (∀ pr ∈ pairsUpper waves,
        (calculateInterference pr.1 pr.2 now).coherenceLevel
            > cfg.interference.constructiveThreshold →
        (pr.1.id, pr.2.id)
          ∈ alKeys (processWaveInterference cfg waves now es).2.activePatterns) := by
  obtain ⟨pr0, hpr0, hret0, hem0, hsome0⟩ := hqual
  have hpw := pairsUpper_keys_pairwise waves hids
  have hval := scored_value cfg now (pairsUpper waves) ([], es) pr0 hpw hpr0 hret0
  have hmem_entry := alGet_mem _ _ _ hval
  have hsb := scored_keeps_behaviors cfg now (pairsUpper waves) ([], es)
  have hwf2 : ∀ k ∈ alKeys ((pairsUpper waves).foldl
        (interferenceStep cfg now) ([], es)).2.emergentBehaviors,
      k < ((pairsUpper waves).foldl (interferenceStep cfg now) ([], es)).2.nextBehaviorId := by
    rw [hsb.1, hsb.2]
    exact hwf
  have hdet := detect_fold_growth cfg now
    ((pairsUpper waves).foldl (interferenceStep cfg now) ([], es)).1
    ([], ((pairsUpper waves).foldl (interferenceStep cfg now) ([], es)).2) hwf2
  refine ⟨?_, hdet.1, ?_⟩
  · have hgrow := hdet.2.2 ⟨((pr0.1.id, pr0.2.id), calculateInterference pr0.1 pr0.2 now),
      hmem_entry, hem0, hsome0⟩
    rw [hsb.1] at hgrow
    exact hgrow
  · intro pr hpr hret
    have hk := scored_retained_mem cfg now (pairsUpper waves) ([], es) pr hpr hret
    have hsub := scored_acc1_sub_patterns cfg now (pairsUpper waves) ([], es)
      (fun k hk0 => absurd hk0 (List.not_mem_nil k)) _ hk
    have hpa : (processWaveInterference cfg waves now es).2.activePatterns
        = ((pairsUpper waves).foldl (interferenceStep cfg now) ([], es)).2.activePatterns :=
      detect_keeps_patterns cfg now _ _
    rw [hpa]
    exact hsub

theorem process_patterns_stable (cfg : HolographicConfig) (waves : List Wave) (now : ℤ)
    (es : EngineState)
    (hpat : ∀ pr ∈ pairsUpper waves,
        (calculateInterference pr.1 pr.2 now).coherenceLevel
            > cfg.interference.constructiveThreshold →
        (pr.1.id, pr.2.id) ∈ alKeys es.activePatterns) :
    (processWaveInterference cfg waves now es).2.activePatterns.length
      = es.activePatterns.length := by
  have h1 : (processWaveInterference cfg waves now es).2.activePatterns
      = ((pairsUpper waves).foldl (interferenceStep cfg now) ([], es)).2.activePatterns :=
    detect_keeps_patterns cfg now _ _
  rw [h1]
  exact scored_patterns_length cfg now (pairsUpper waves) ([], es) hpat

/-- C10 (implicit): `getSystemState` is not read-only — with an unchanged active-signal
set containing a qualifying pair (retained above the constructive threshold, above the
emergent threshold, with emergent content), each call strictly grows the collection
returned by `getEmergentBehaviors` (fresh behavior ids each call), while from the second
call on the pattern cache returned by `getActivePatterns` does not grow, because pattern
ids are the stable wave-id pair.  (The id-wellformedness and distinct-wave-id hypotheses
hold for every state the engine itself constructs.) -/
theorem c10_getSystemState_accumulates (cfg : HolographicConfig) (now : ℤ)
    (st : SystemState)
    (hids : List.Pairwise (fun a b : Wave => a.id ≠ b.id) st.activeWaves)
    (hwf : ∀ k ∈ alKeys st.engine.emergentBehaviors, k < st.engine.nextBehaviorId)
    (hqual : ∃ pr ∈ pairsUpper st.activeWaves,
        (calculateInterference pr.1 pr.2 now).coherenceLevel
            > cfg.interference.constructiveThreshold
        ∧ (calculateInterference pr.1 pr.2 now).coherenceLevel
            > cfg.interference.emergentThreshold
        ∧ (calculateInterference pr.1 pr.2 now).emergentContent.isSome = true) :
    (getEmergentBehaviors st.engine).length
        < (getEmergentBehaviors (getSystemState cfg now st).2.engine).length
    ∧ (getEmergentBehaviors (getSystemState cfg now st).2.engine).length
        < (getEmergentBehaviors
            (getSystemState cfg now (getSystemState cfg now st).2).2.engine).length
    ∧ (getActivePatterns
          (getSystemState cfg now (getSystemState cfg now st).2).2.engine).length
        = (getActivePatterns (getSystemState cfg now st).2.engine).length := by
  have h1 := process_effects cfg st.activeWaves now st.engine hwf hids hqual
  have h2 := process_effects cfg st.activeWaves now
    (processWaveInterference cfg st.activeWaves now st.engine).2 h1.2.1 hids hqual
  have h3 := process_patterns_stable cfg st.activeWaves now
    (processWaveInterference cfg st.activeWaves now st.engine).2 h1.2.2
  simp only [getEmergentBehaviors, getActivePatterns, List.length_map]
  exact ⟨h1.1, h2.1, h3⟩

theorem c10_pair_coherence :
    (calculateInterference c10WaveA c10WaveB 0).coherenceLevel = 1 := by
  show (Real.cos |c10WaveA.phase - c10WaveB.phase|
      + Real.exp (-|c10WaveA.frequency / c10WaveB.frequency - 1|)) / 2 = 1
  have h1 : |c10WaveA.phase - c10WaveB.phase| = 0 := by
    show |(0 : ℝ) - 0| = 0
    norm_num
  have h2 : |c10WaveA.frequency / c10WaveB.frequency - 1| = 0 := by
    show |(1 : ℝ) / 1 - 1| = 0
    norm_num
  rw [h1, h2, neg_zero, Real.exp_zero, Real.cos_zero]
  norm_num

theorem c10_pair_content :
    (calculateInterference c10WaveA c10WaveB 0).emergentContent.isSome = true := by
  have hec : (calculateInterference c10WaveA c10WaveB 0).emergentContent
      = synthesizeContent c10WaveA.content c10WaveB.content
          ((Real.cos |c10WaveA.phase - c10WaveB.phase|
            + Real.exp (-|c10WaveA.frequency / c10WaveB.frequency - 1|)) / 2) := rfl
  have harg : (Real.cos |c10WaveA.phase - c10WaveB.phase|
      + Real.exp (-|c10WaveA.frequency / c10WaveB.frequency - 1|)) / 2 = 1 :=
    c10_pair_coherence
  rw [hec, harg]
  show (synthesizeContent "hello world wave" "hello world wave" 1).isSome = true
  unfold synthesizeContent
  rw [if_neg (by norm_num)]
  dsimp only
  rw [if_neg (by decide)]
  decide

/-- Witness for C10 at two identical-content, in-phase, equal-frequency active waves
(pair coherence 1, shared words `hello`, `world`, `wave`) and the representative
configuration. -/
theorem c10_getSystemState_accumulates_witness :
    (List.Pairwise (fun a b : Wave => a.id ≠ b.id) c10State.activeWaves
      ∧ (∀ k ∈ alKeys c10State.engine.emergentBehaviors, k < c10State.engine.nextBehaviorId)
      ∧ (∃ pr ∈ pairsUpper c10State.activeWaves,
          (calculateInterference pr.1 pr.2 0).coherenceLevel
              > defaultConfig.interference.constructiveThreshold
          ∧ (calculateInterference pr.1 pr.2 0).coherenceLevel
              > defaultConfig.interference.emergentThreshold
          ∧ (calculateInterference pr.1 pr.2 0).emergentContent.isSome = true))
    ∧ ((getEmergentBehaviors c10State.engine).length
          < (getEmergentBehaviors (getSystemState defaultConfig 0 c10State).2.engine).length
      ∧ (getEmergentBehaviors (getSystemState defaultConfig 0 c10State).2.engine).length
          < (getEmergentBehaviors (getSystemState defaultConfig 0
              (getSystemState defaultConfig 0 c10State).2).2.engine).length
      ∧ (getActivePatterns (getSystemState defaultConfig 0
            (getSystemState defaultConfig 0 c10State).2).2.engine).length
          = (getActivePatterns (getSystemState defaultConfig 0 c10State).2.engine).length) := by
  refine ⟨⟨?h1, ?h2, ?h3⟩,
    c10_getSystemState_accumulates defaultConfig 0 c10State ?h1 ?h2 ?h3⟩
  case h1 =>
    refine List.Pairwise.cons ?_ (List.pairwise_singleton _ _)
    intro b hb
    rw [List.mem_singleton.mp hb]
    show (0 : ℕ) ≠ 1
    decide
  case h2 =>
    intro k hk
    exact absurd hk (List.not_mem_nil k)
  case h3 =>
    refine ⟨(c10WaveA, c10WaveB), List.mem_singleton.mpr rfl, ?_, ?_, c10_pair_content⟩
    · rw [c10_pair_coherence]
      norm_num [defaultConfig]
    · rw [c10_pair_coherence]
      norm_num [defaultConfig]

end Holo
